import Mathlib

/-!
Verification of the token-lifecycle manager (`cursor_token_refresh.py`) and the
JWT payload decoder (`jwt_decoder.py`) of the auto-cursor-refreshToken repository.

Modelling conventions used throughout this file:

* JSON values are modelled by the inductive type `Json` (no floating point:
  the repository only ever writes and compares integer timestamps).
* A store row's raw value is modelled per its `json.loads` status, as the
  tagged union suggested by the design notes: `RawValue.parsed j` stands for
  a string whose JSON parse is `j`, `RawValue.unparseable s` for a string
  rejected by the JSON parser, and `RawValue.empty` for a NULL/empty value
  (Python falsy, so `json.loads` is skipped by the code).
* The SQLite store is the list of its `ItemTable` rows in enumeration order;
  an unreachable store (connection/query raising) is `Option.none`.
* Wall-clock time `now` is an injected integer count of seconds since the
  epoch; `datetime` arithmetic is modelled exactly over the integers
  (10-day threshold = 864000 s, `expires_in` seconds, millisecond scaling).
* The HTTP layer of `requests` is modelled by the response alone:
  `none` is a network failure/timeout (the `requests.post` call raising),
  `some r` a response with status code `r.status` and `r.body` the result of
  `response.json()` (`none` when the body is not parseable JSON).  A JSON
  `null` body makes the Python function return `None`, which callers cannot
  distinguish from failure, hence it is mapped to `none` as well.
-/

/-- JSON values as produced by `json.loads` (floats are not modelled; the
repository reads and writes integer timestamps only). An object is the list
of its key/value pairs in insertion order; objects coming from `json.loads`
have pairwise distinct keys. -/
inductive Json where
  | null : Json
  | bool (b : Bool) : Json
  | int (n : Int) : Json
  | str (s : String) : Json
  | arr (xs : List Json) : Json
  | obj (fields : List (String × Json)) : Json

/-- Python truthiness (`if not x`) of a JSON value held in a Python variable. -/
def Json.falsy : Json → Bool
  | .null => true
  | .bool b => !b
  | .int n => n == 0
  | .str s => s == ""
  | .arr xs => xs.isEmpty
  | .obj fields => fields.isEmpty

/-- Python truthiness of an optional JSON value (`None` is falsy). -/
def optFalsy : Option Json → Bool
  | none => true
  | some j => j.falsy

/-- Dictionary lookup `d[k]` / `k in d` on a parsed JSON object. -/
def lookupF (k : String) : List (String × Json) → Option Json
  | [] => none
  | (k2, v) :: rest => if k2 = k then some v else lookupF k rest

/-- Dictionary update `d[k] = v`: replaces the first binding of `k` in place,
or appends a new binding at the end (Python dict insertion order). -/
def setF (fields : List (String × Json)) (k : String) (v : Json) : List (String × Json) :=
  match fields with
  | [] => [(k, v)]
  | (k2, v2) :: rest => if k2 = k then (k, v) :: rest else (k2, v2) :: setF rest k v

/-- A store row's raw value, tagged by its JSON parse status. -/
inductive RawValue where
  | parsed (j : Json) : RawValue
  | unparseable (s : String) : RawValue
  | empty : RawValue

/-- The `ItemTable` key-value table, rows in store-enumeration order. -/
abbrev Store := List (String × RawValue)

/-- ASCII lowercasing of one character. -/
def lowerChar (c : Char) : Char :=
  if 65 ≤ c.toNat ∧ c.toNat ≤ 90 then Char.ofNat (c.toNat + 32) else c

/-- Substring test over char lists. -/
def containsSub (hay needle : List Char) : Bool :=
  hay.tails.any (fun t => needle.isPrefixOf t)

/-- The scan filter, `key LIKE '%auth%' OR key LIKE '%token%'`
(SQLite `LIKE` is ASCII case-insensitive). -/
def matchesFilter (k : String) : Bool :=
  containsSub (k.data.map lowerChar) "auth".data ||
    containsSub (k.data.map lowerChar) "token".data

/-- The Python value stored in `auth_data[key]`:
`json.loads(value) if value else None`, with `json.JSONDecodeError`
caught and the raw string kept. -/
inductive PyData where
  | jsonVal (j : Json) : PyData
  | rawStr (s : String) : PyData
  | pyNone : PyData

/-- Builds the `auth_data` entry for one scanned row. -/
def loadEntry : RawValue → PyData
  | .parsed j => .jsonVal j
  | .unparseable s => .rawStr s
  | .empty => .pyNone

/-- The rows matched by the scan query, with their `auth_data` values,
in enumeration order. -/
def scanEntries (s : Store) : List (String × PyData) :=
  (s.filter (fun kv => matchesFilter kv.1)).map (fun kv => (kv.1, loadEntry kv.2))

/-- The in-memory token state assembled by `get_current_tokens`
(the dictionary it returns, minus `raw_data`). -/
structure TokenInfo where
  access_token : Option Json
  refresh_token : Option Json
  expires_at : Option Json

/-- One iteration of the extraction loop of `get_current_tokens`: if the
entry is a dict, each field present in it overwrites the variable. -/
def tokenStep (ti : TokenInfo) (d : PyData) : TokenInfo :=
  match d with
  | .jsonVal (Json.obj f) =>
    { access_token := match lookupF "accessToken" f with
        | some v => some v
        | none => ti.access_token
      refresh_token := match lookupF "refreshToken" f with
        | some v => some v
        | none => ti.refresh_token
      expires_at := match lookupF "expiresAt" f with
        | some v => some v
        | none => match lookupF "expires_at" f with
          | some v => some v
          | none => ti.expires_at }
  | _ => ti

/-- The extraction loop of `get_current_tokens` over the scanned entries. -/
def extractTokens (entries : List (String × PyData)) : TokenInfo :=
  entries.foldl (fun ti e => tokenStep ti e.2) ⟨none, none, none⟩

/-- Token state read from a reachable store. -/
def tokensOf (s : Store) : TokenInfo :=
  extractTokens (scanEntries s)

/-- `CursorTokenManager.get_current_tokens`: returns `None` exactly when the
store is unreachable (the `sqlite3` calls raise); otherwise scans the matching
rows and assembles the token state. -/
def get_current_tokens : Option Store → Option TokenInfo
  | none => none
  | some s => some (tokensOf s)

/-- The epoch-second arguments on which `datetime.fromtimestamp` succeeds:
the resulting datetime must land in years 1..9999 (the process local
timezone is modelled as UTC, so `datetime(1,1,1)` is `-62135596800` and the
last microsecond of `datetime(9999,12,31)` is `253402300799.999999`); outside
this range `fromtimestamp` raises (`ValueError`/`OverflowError`). -/
def fromtimestampOk (t : Int) : Bool :=
  decide (-62135596800 ≤ t ∧ t ≤ 253402300799)

/-- Whether `datetime.fromtimestamp(n / 1000)` succeeds for an integer
millisecond value `n`: the rational quotient `n/1000` must lie in the
representable second range, which for integer `n` is
`-62135596800000 ≤ n ≤ 253402300799999`. -/
def fromtimestampMsOk (n : Int) : Bool :=
  decide (-62135596800000 ≤ n ∧ n ≤ 253402300799999)

/-- `CursorTokenManager.check_token_expiry`. A Python-falsy `expires_at`
returns `True` immediately; a numeric value strictly above `10^12` is taken
as milliseconds since the epoch, otherwise as seconds; any value the
comparison with `10**12` raises on (strings, lists, dicts, `None`) falls into
the `except` branch and returns `True`. `datetime.fromtimestamp` sits inside
the same `try`: a numeric value whose timestamp falls outside the
representable year range 1..9999 makes it raise, and the `except` branch
again returns `True`. On the representable range the decision is
`expire_time - now < timedelta(days=10)`, computed exactly (`864000` seconds;
the millisecond branch is the exact rational comparison `n/1000 - now <
864000`, scaled by 1000). Python `bool` is numeric: the only non-falsy bool,
`True`, compares as `1`, and `fromtimestamp(1)` always succeeds. -/
def check_token_expiry (e : Option Json) (now : Int) : Bool :=
  match e with
  | none => true
  | some j =>
    if j.falsy then true
    else
      match j with
      | Json.int n =>
        if n > 10 ^ 12 then
          if fromtimestampMsOk n then decide (n - 1000 * now < 864000000) else true
        else
          if fromtimestampOk n then decide (n - now < 864000) else true
      | Json.bool _ => decide ((1 : Int) - now < 864000)
      | _ => true

/-- An HTTP response: status code and the result of `response.json()`
(`none` when the body does not parse as JSON). -/
structure HttpResp where
  status : Nat
  body : Option Json

/-- `CursorTokenManager.refresh_access_token`, as a function of the response
to the single `POST {base}/auth/refresh` request it issues. `none` models the
request raising (network failure/timeout). On a 200 response the parsed JSON
body is returned with no further checks; any other status, a body that fails
to parse, or a JSON `null` body (Python then returns the object `None`)
yields `None`. The status code and body of a failed response are only
logged, not returned. -/
def refresh_access_token : Option HttpResp → Option Json
  | none => none
  | some r =>
    if r.status = 200 then
      match r.body with
      | some Json.null => none
      | some j => some j
      | none => none
    else none

/-- Whether `x[:20] + "..." if x else "None"` evaluates without raising:
fine for a falsy value (the conditional short-circuits to `"None"`) or a
string; a truthy non-string raises `TypeError` inside the update loop. -/
def sliceOk (j : Json) : Bool :=
  j.falsy ||
    match j with
    | .str _ => true
    | _ => false

/-- `timedelta(seconds=x)` for a JSON value: integers work, a Python bool is
an integer subtype (`True` counts as 1), anything else raises `TypeError`. -/
def jsonSeconds : Json → Option Int
  | .int n => some n
  | .bool b => some (if b then 1 else 0)
  | _ => none

/-- The body of the update loop of `update_token_in_db` for one matched
record whose parsed value is a dict containing `accessToken`, given the
fields `nt` of the refresh response. Returns the updated fields, or `none`
when the body raises (a truthy non-string token being sliced for the log
preview, or a non-numeric `expires_in`); any such exception escapes the
loop, so the surrounding transaction is rolled back. -/
def rowUpdate (nt : List (String × Json)) (now : Int) (fields : List (String × Json)) :
    Option (List (String × Json)) :=
  let oldA := (lookupF "accessToken" fields).getD Json.null
  if sliceOk oldA then
    let newA := (lookupF "access_token" nt).getD oldA
    let f1 := setF fields "accessToken" newA
    let f2 := match lookupF "refresh_token" nt with
      | some rv => setF f1 "refreshToken" rv
      | none => f1
    match lookupF "expires_in" nt with
    | some ev =>
      match jsonSeconds ev with
      | some secs =>
        if sliceOk newA then some (setF f2 "expiresAt" (Json.int ((now + secs) * 1000)))
        else none
      | none => none
    | none => if sliceOk newA then some f2 else none
  else none

/-- The update loop of `update_token_in_db` over all rows of the store:
rows not matched by the scan filter are untouched; matched rows whose value
is empty, not JSON-parseable (`json.JSONDecodeError` is caught and the row
skipped), not a dict, or a dict without `accessToken` are kept as they are;
each remaining row is rewritten with `json.dumps` of its updated dict and
counted. `none` models an exception escaping the loop, which skips
`conn.commit()` and so rolls every executed `UPDATE` back. -/
def updateRows (nt : List (String × Json)) (now : Int) :
    List (String × RawValue) → Option (List (String × RawValue) × Nat)
  | [] => some ([], 0)
  | (k, v) :: rest =>
    if matchesFilter k then
      match v with
      | RawValue.parsed (Json.obj fields) =>
        if (lookupF "accessToken" fields).isSome then
          match rowUpdate nt now fields with
          | none => none
          | some f2 =>
            match updateRows nt now rest with
            | none => none
            | some (l, c) => some ((k, RawValue.parsed (Json.obj f2)) :: l, c + 1)
        else
          match updateRows nt now rest with
          | none => none
          | some (l, c) => some ((k, v) :: l, c)
      | _ =>
        match updateRows nt now rest with
        | none => none
        | some (l, c) => some ((k, v) :: l, c)
    else
      match updateRows nt now rest with
      | none => none
      | some (l, c) => some ((k, v) :: l, c)

/-- `CursorTokenManager.update_token_in_db`: scans the matched rows again,
updates every JSON-parseable dict containing `accessToken`, commits, and
returns `updated_count > 0`. A refresh response that is not a JSON object
makes the first `.get` raise `AttributeError` before the commit (when some
row holds an `accessToken`; otherwise the loop writes nothing anyway), and
any exception path returns `False` with the store unchanged. -/
def update_token_in_db (s : Store) (newTok : Json) (now : Int) : Store × Bool :=
  match newTok with
  | Json.obj nt =>
    match updateRows nt now s with
    | some (l, c) => (l, decide (0 < c))
    | none => (s, false)
  | _ => (s, false)

/-- The distinct terminal states of one `refresh_if_needed` run, one per
return site (the Python function returns a bare bool and identifies the
state in its log line). -/
inductive RefreshOutcome where
  | noRecordsFound
  | missingRefreshToken
  | notNeeded
  | refreshFailed
  | updated
  | noRecordsUpdated
deriving DecidableEq, Repr

/-- The boolean the Python function actually returns for each outcome. -/
def RefreshOutcome.toBool : RefreshOutcome → Bool
  | .noRecordsFound => false
  | .missingRefreshToken => false
  | .notNeeded => true
  | .refreshFailed => false
  | .updated => true
  | .noRecordsUpdated => false

/-- `CursorTokenManager.refresh_if_needed` over an injected store state,
refresh response and clock. Returns the terminal outcome together with the
resulting store state. `get_current_tokens` returns `None` (and the run
stops at its first failure site) only when the store is unreachable; on a
reachable store it always returns a truthy 4-key dict, so an empty scan
falls through to the `refresh_token` check instead. -/
def refresh_if_needed (store : Option Store) (resp : Option HttpResp) (now : Int) :
    RefreshOutcome × Option Store :=
  match store with
  | none => (RefreshOutcome.noRecordsFound, none)
  | some s =>
    let ti := tokensOf s
    if optFalsy ti.refresh_token then (RefreshOutcome.missingRefreshToken, some s)
    else if check_token_expiry ti.expires_at now then
      match refresh_access_token resp with
      | none => (RefreshOutcome.refreshFailed, some s)
      | some nt =>
        if nt.falsy then (RefreshOutcome.refreshFailed, some s)
        else
          let r := update_token_in_db s nt now
          ((if r.2 then RefreshOutcome.updated else RefreshOutcome.noRecordsUpdated), some r.1)
    else (RefreshOutcome.notNeeded, some s)

/-- The last `some` of a list of options (the value left in a variable that
is overwritten by every present field, scanning left to right). -/
def lastSome : List (Option α) → Option α
  | [] => none
  | o :: rest =>
    match lastSome rest with
    | some v => some v
    | none => o

/-- The `accessToken` field of one `auth_data` entry, when it is a dict. -/
def accessOf : PyData → Option Json
  | .jsonVal (Json.obj f) => lookupF "accessToken" f
  | _ => none

/-- The `refreshToken` field of one `auth_data` entry, when it is a dict. -/
def refreshOf : PyData → Option Json
  | .jsonVal (Json.obj f) => lookupF "refreshToken" f
  | _ => none

/-- The expiry field of one `auth_data` entry: `expiresAt`, else
`expires_at`, when it is a dict. -/
def expiresOf : PyData → Option Json
  | .jsonVal (Json.obj f) =>
    match lookupF "expiresAt" f with
    | some v => some v
    | none => lookupF "expires_at" f
  | _ => none

theorem lastSome_cons (o : Option α) (l : List (Option α)) :
    lastSome (o :: l) = (lastSome l).or o := by
  cases h : lastSome l <;> simp [lastSome, h, Option.or]

theorem tokenStep_fields (ti : TokenInfo) (d : PyData) :
    tokenStep ti d =
      ⟨(accessOf d).or ti.access_token,
       (refreshOf d).or ti.refresh_token,
       (expiresOf d).or ti.expires_at⟩ := by
  cases d with
  | jsonVal j =>
    cases j <;> simp only [tokenStep, accessOf, refreshOf, expiresOf, Option.or]
    case obj f =>
      cases lookupF "accessToken" f <;> cases lookupF "refreshToken" f <;>
        cases lookupF "expiresAt" f <;> cases lookupF "expires_at" f <;> rfl
  | rawStr s => simp [tokenStep, accessOf, refreshOf, expiresOf, Option.or]
  | pyNone => simp [tokenStep, accessOf, refreshOf, expiresOf, Option.or]

theorem extract_go (entries : List (String × PyData)) (ti : TokenInfo) :
    entries.foldl (fun a e => tokenStep a e.2) ti =
      ⟨(lastSome (entries.map (fun e => accessOf e.2))).or ti.access_token,
       (lastSome (entries.map (fun e => refreshOf e.2))).or ti.refresh_token,
       (lastSome (entries.map (fun e => expiresOf e.2))).or ti.expires_at⟩ := by
  induction entries generalizing ti with
  | nil => simp [lastSome, Option.or]
  | cons e rest ih =>
    simp only [List.foldl_cons, List.map_cons, lastSome_cons]
    rw [ih, tokenStep_fields]
    simp [Option.or_assoc]

/-- The extraction loop keeps, for each field, the last value found in
enumeration order. -/
theorem extractTokens_eq (entries : List (String × PyData)) :
    extractTokens entries =
      ⟨lastSome (entries.map (fun e => accessOf e.2)),
       lastSome (entries.map (fun e => refreshOf e.2)),
       lastSome (entries.map (fun e => expiresOf e.2))⟩ := by
  simp [extractTokens, extract_go]

/-- A scan hitting two credential-bearing records, both with `accessToken`,
the first also carrying `refreshToken`. -/
def c1Store : Store :=
  [("authRecordOne",
      RawValue.parsed (Json.obj [("accessToken", Json.str "A"), ("refreshToken", Json.str "R")])),
   ("authRecordTwo",
      RawValue.parsed (Json.obj [("accessToken", Json.str "B")]))]

/-- C1, counterexample: on a store whose scan yields two credential-bearing
records with `accessToken` values `"A"` then `"B"` in enumeration order, the
token state handed to the orchestrator holds `"B"`, not the first value
`"A"` the claim requires: the extraction loop overwrites on every match, so
the last record wins for read, refuting first-match-wins. -/
theorem C1_counterexample :
    (get_current_tokens (some c1Store)).map (fun ti => ti.access_token) =
        some (some (Json.str "B")) ∧
      Json.str "B" ≠ Json.str "A" := by
  constructor
  · rfl
  · intro h
    injection h with h2
    exact absurd h2 (by decide)

/-- C1, amended: for every store scan, the token state takes, for each of
`accessToken`, `refreshToken` and the expiry field (`expiresAt`, else
`expires_at`), the LAST value found in store-enumeration order among
records whose value parses to a dict containing the field; first match does
not win for read, the final overwrite does. -/
theorem C1_amended (s : Store) :
    get_current_tokens (some s) =
      some ⟨lastSome ((scanEntries s).map (fun e => accessOf e.2)),
            lastSome ((scanEntries s).map (fun e => refreshOf e.2)),
            lastSome ((scanEntries s).map (fun e => expiresOf e.2))⟩ := by
  simp [get_current_tokens, tokensOf, extractTokens_eq]

/-- C3: when the run reaches the refresh call (a refresh token was found and
the expiry check asked for a refresh) and the HTTP response has any non-200
status, `refresh_if_needed` stops at the `RefreshFailed` site, returns the
failure boolean, and the store state is exactly the input store: no write
site is ever reached, so every record is left byte-for-byte unchanged. -/
theorem C3_refresh_failure_no_write (s : Store) (r : HttpResp) (now : Int)
    (hrt : optFalsy (tokensOf s).refresh_token = false)
    (hexp : check_token_expiry (tokensOf s).expires_at now = true)
    (hstatus : r.status ≠ 200) :
    refresh_if_needed (some s) (some r) now = (RefreshOutcome.refreshFailed, some s) ∧
      RefreshOutcome.refreshFailed.toBool = false := by
  refine ⟨?_, rfl⟩
  simp only [refresh_if_needed, hrt, hexp, Bool.false_eq_true, if_false, if_true,
    refresh_access_token, if_neg hstatus]

/-- Witness for C3: a one-record credential store with an expired token and
a 401 response. -/
theorem C3_witness :
    refresh_if_needed
        (some [("authStore", RawValue.parsed (Json.obj
          [("accessToken", Json.str "T"), ("refreshToken", Json.str "R"),
           ("expiresAt", Json.int 5)]))])
        (some ⟨401, none⟩) 1700000000 =
      (RefreshOutcome.refreshFailed,
        some [("authStore", RawValue.parsed (Json.obj
          [("accessToken", Json.str "T"), ("refreshToken", Json.str "R"),
           ("expiresAt", Json.int 5)]))]) :=
  (C3_refresh_failure_no_write _ _ _ (by decide) (by decide) (by decide)).1

/-- C4, counterexample: `expires_at = 3·10^11` is routed to the seconds
branch by the `10^12` test, but it is a far-future (year ≈ 11476) timestamp
that `datetime.fromtimestamp` cannot represent: the code raises inside the
`try` and returns `True`, whereas the pure arithmetic decision
`(expiresAt - now) < 10 days` claimed for every numeric value is false
there (the expiry is thousands of years away). -/
theorem C4_counterexample :
    check_token_expiry (some (Json.int (3 * 10 ^ 11))) 1700000000 = true ∧
      ¬ ((3 * 10 ^ 11 : Int) > 10 ^ 12) ∧
      ¬ ((3 * 10 ^ 11 : Int) - 1700000000 < 864000) := by
  refine ⟨by decide, by norm_num, by norm_num⟩

/-- C4, amended: `check_token_expiry` treats a numeric `expires_at`
strictly greater than `10^12` as milliseconds since the epoch and otherwise
as seconds, and — whenever the selected timestamp is representable by
`datetime.fromtimestamp` (years 1..9999) — decides by
`(expiresAt - now) < 10 days` (864000 s, exactly scaled in the millisecond
branch); a numeric value outside the representable range makes
`fromtimestamp` raise and the `except` branch returns `True` instead of the
arithmetic answer. With the clock in the window where the heuristic
distinguishes the two encodings, `now + 11 days` (950400 s) is fresh in
both encodings, `now + 9 days` (777600 s) needs refresh in both, and an
absent value needs refresh. -/
theorem C4_amended (now : Int) (h1 : 10 ^ 9 ≤ now) (h2 : now ≤ 10 ^ 11) :
    (∀ n : Int, n ≠ 0 →
        (n > 10 ^ 12 → fromtimestampMsOk n = true →
          check_token_expiry (some (Json.int n)) now =
            decide (n - 1000 * now < 864000000)) ∧
        (¬ n > 10 ^ 12 → fromtimestampOk n = true →
          check_token_expiry (some (Json.int n)) now = decide (n - now < 864000)) ∧
        (n > 10 ^ 12 → fromtimestampMsOk n = false →
          check_token_expiry (some (Json.int n)) now = true) ∧
        (¬ n > 10 ^ 12 → fromtimestampOk n = false →
          check_token_expiry (some (Json.int n)) now = true)) ∧
      check_token_expiry (some (Json.int (now + 950400))) now = false ∧
      check_token_expiry (some (Json.int ((now + 950400) * 1000))) now = false ∧
      check_token_expiry (some (Json.int (now + 777600))) now = true ∧
      check_token_expiry (some (Json.int ((now + 777600) * 1000))) now = true ∧
      check_token_expiry none now = true := by
  have base : ∀ n : Int, n ≠ 0 →
      check_token_expiry (some (Json.int n)) now =
        if n > 10 ^ 12 then
          if fromtimestampMsOk n then decide (n - 1000 * now < 864000000) else true
        else
          if fromtimestampOk n then decide (n - now < 864000) else true := by
    intro n hn
    simp [check_token_expiry, Json.falsy, hn]
  have gen : ∀ n : Int, n ≠ 0 →
      (n > 10 ^ 12 → fromtimestampMsOk n = true →
        check_token_expiry (some (Json.int n)) now =
          decide (n - 1000 * now < 864000000)) ∧
      (¬ n > 10 ^ 12 → fromtimestampOk n = true →
        check_token_expiry (some (Json.int n)) now = decide (n - now < 864000)) ∧
      (n > 10 ^ 12 → fromtimestampMsOk n = false →
        check_token_expiry (some (Json.int n)) now = true) ∧
      (¬ n > 10 ^ 12 → fromtimestampOk n = false →
        check_token_expiry (some (Json.int n)) now = true) := by
    intro n hn
    refine ⟨fun hgt hok => ?_, fun hle hok => ?_, fun hgt hbad => ?_, fun hle hbad => ?_⟩
    · rw [base n hn, if_pos hgt, if_pos hok]
    · rw [base n hn, if_neg hle, if_pos hok]
    · rw [base n hn, if_pos hgt, if_neg (by simp [hbad])]
    · rw [base n hn, if_neg hle, if_neg (by simp [hbad])]
  refine ⟨gen, ?_, ?_, ?_, ?_, rfl⟩
  · rw [base _ (by omega), if_neg (by omega),
      if_pos (show fromtimestampOk (now + 950400) = true by
        simp only [fromtimestampOk, decide_eq_true_eq]; omega)]
    simp only [decide_eq_false_iff_not]
    omega
  · rw [base _ (by omega), if_pos (by omega),
      if_pos (show fromtimestampMsOk ((now + 950400) * 1000) = true by
        simp only [fromtimestampMsOk, decide_eq_true_eq]; omega)]
    simp only [decide_eq_false_iff_not]
    omega
  · rw [base _ (by omega), if_neg (by omega),
      if_pos (show fromtimestampOk (now + 777600) = true by
        simp only [fromtimestampOk, decide_eq_true_eq]; omega)]
    simp only [decide_eq_true_eq]
    omega
  · rw [base _ (by omega), if_pos (by omega),
      if_pos (show fromtimestampMsOk ((now + 777600) * 1000) = true by
        simp only [fromtimestampMsOk, decide_eq_true_eq]; omega)]
    simp only [decide_eq_true_eq]
    omega

/-- Witness for C4 at a concrete clock, including a value the
`fromtimestamp` raise path turns into `True`. -/
theorem C4_witness :
    check_token_expiry (some (Json.int (1700000000 + 950400))) 1700000000 = false ∧
      check_token_expiry (some (Json.int ((1700000000 + 950400) * 1000))) 1700000000 = false ∧
      check_token_expiry (some (Json.int (1700000000 + 777600))) 1700000000 = true ∧
      check_token_expiry (some (Json.int (3 * 10 ^ 11))) 1700000000 = true ∧
      check_token_expiry none 1700000000 = true := by
  have h := C4_amended 1700000000 (by decide) (by decide)
  refine ⟨h.2.1, h.2.2.1, h.2.2.2.1, ?_, h.2.2.2.2.2⟩
  exact (h.1 (3 * 10 ^ 11) (by decide)).2.2.2 (by decide) (by decide)

/-- C5, counterexample: a reachable store whose scan matches zero records is
not reported as `NoRecordsFound`: `get_current_tokens` still returns a
truthy 4-key dict of `None`s, so the run falls through to the refresh-token
check and fails at the distinct `MissingRefreshToken` site. -/
theorem C5_counterexample :
    refresh_if_needed (some []) none 0 = (RefreshOutcome.missingRefreshToken, some []) ∧
      RefreshOutcome.missingRefreshToken ≠ RefreshOutcome.noRecordsFound := by
  exact ⟨rfl, by decide⟩

/-- C5, amended: only an unreachable store (the scan itself raising) yields
`NoRecordsFound`; a reachable store on which the scan finds no refresh
token — in particular one matching zero credential records — yields
`MissingRefreshToken` instead. In both cases zero writes are performed: the
resulting store state equals the input. -/
theorem C5_amended :
    (∀ (resp : Option HttpResp) (now : Int),
        refresh_if_needed none resp now = (RefreshOutcome.noRecordsFound, none)) ∧
      ∀ (s : Store) (resp : Option HttpResp) (now : Int),
        optFalsy (tokensOf s).refresh_token = true →
          refresh_if_needed (some s) resp now = (RefreshOutcome.missingRefreshToken, some s) := by
  refine ⟨fun resp now => rfl, fun s resp now h => ?_⟩
  simp only [refresh_if_needed, h, if_true]

/-- Witness for C5: an empty reachable store and a non-credential record. -/
theorem C5_witness :
    refresh_if_needed none none 0 = (RefreshOutcome.noRecordsFound, none) ∧
      refresh_if_needed (some [("authNote", RawValue.unparseable "plain text")]) none 0 =
        (RefreshOutcome.missingRefreshToken, some [("authNote", RawValue.unparseable "plain text")]) :=
  ⟨C5_amended.1 none 0, C5_amended.2 _ none 0 (by decide)⟩

/-- C10: a present `expires_at` that is not a Python number (not a JSON
integer, and not a bool — Python bools are integers) makes the comparison
with `10**12` raise; the `except` branch turns this into `True`, failing
safe toward refreshing instead of propagating the exception. -/
theorem C10_non_numeric_fails_safe (j : Json) (now : Int)
    (hint : ∀ n : Int, j ≠ Json.int n) (hbool : ∀ b : Bool, j ≠ Json.bool b) :
    check_token_expiry (some j) now = true := by
  cases j with
  | int n => exact absurd rfl (hint n)
  | bool b => exact absurd rfl (hbool b)
  | null => rfl
  | str s => simp [check_token_expiry, Json.falsy]
  | arr xs => simp [check_token_expiry, Json.falsy]
  | obj fields => simp [check_token_expiry, Json.falsy]

/-- Witness for C10: a non-numeric string expiry. -/
theorem C10_witness :
    check_token_expiry (some (Json.str "not-a-timestamp")) 1700000000 = true :=
  C10_non_numeric_fails_safe _ _ (fun n h => by cases h) (fun b h => by cases h)

/-- C2: with one credential-bearing record (`accessToken="OLD"`,
`refreshToken="R1"`, `expiresAt` one day from now in milliseconds) and a 200
refresh response `access_token="NEW"`, `expires_in=3600` with no
`refresh_token`, the run succeeds and rewrites the record with
`accessToken="NEW"`, `refreshToken="R1"` unchanged, and `expiresAt = (now +
3600 s) in milliseconds. -/
theorem C2_refresh_updates_record (k : String) (now : Int)
    (hk : matchesFilter k = true) (hnow : 10 ^ 9 ≤ now) :
    refresh_if_needed
        (some [(k, RawValue.parsed (Json.obj
          [("accessToken", Json.str "OLD"), ("refreshToken", Json.str "R1"),
           ("expiresAt", Json.int ((now + 86400) * 1000))]))])
        (some ⟨200, some (Json.obj
          [("access_token", Json.str "NEW"), ("expires_in", Json.int 3600)])⟩)
        now =
      (RefreshOutcome.updated,
        some [(k, RawValue.parsed (Json.obj
          [("accessToken", Json.str "NEW"), ("refreshToken", Json.str "R1"),
           ("expiresAt", Json.int ((now + 3600) * 1000))]))]) ∧
      RefreshOutcome.updated.toBool = true := by
  refine ⟨?_, rfl⟩
  have hti : tokensOf [(k, RawValue.parsed (Json.obj
      [("accessToken", Json.str "OLD"), ("refreshToken", Json.str "R1"),
       ("expiresAt", Json.int ((now + 86400) * 1000))]))] =
      ⟨some (Json.str "OLD"), some (Json.str "R1"),
        some (Json.int ((now + 86400) * 1000))⟩ := by
    simp [tokensOf, scanEntries, hk, extractTokens, tokenStep, loadEntry, lookupF]
  have hexp : check_token_expiry (some (Json.int ((now + 86400) * 1000))) now = true := by
    have h0 : (((now + 86400) * 1000 : Int) == 0) = false := by
      rw [beq_eq_false_iff_ne]; omega
    simp only [check_token_expiry, Json.falsy, h0, Bool.false_eq_true, if_false]
    rw [if_pos (by omega : ((now + 86400) * 1000 : Int) > 10 ^ 12)]
    by_cases hok : fromtimestampMsOk ((now + 86400) * 1000) = true
    · rw [if_pos hok, decide_eq_true_eq]
      omega
    · rw [if_neg hok]
  simp only [refresh_if_needed, hti, hexp, optFalsy, Json.falsy, if_true]
  norm_num
  simp only [refresh_access_token, if_pos rfl]
  simp [update_token_in_db, updateRows, hk, rowUpdate, lookupF, setF, sliceOk,
    Json.falsy, jsonSeconds]

/-- Witness for C2 at a concrete key and clock. -/
theorem C2_witness :
    refresh_if_needed
        (some [("cursorAuth", RawValue.parsed (Json.obj
          [("accessToken", Json.str "OLD"), ("refreshToken", Json.str "R1"),
           ("expiresAt", Json.int ((2000000000 + 86400) * 1000))]))])
        (some ⟨200, some (Json.obj
          [("access_token", Json.str "NEW"), ("expires_in", Json.int 3600)])⟩)
        2000000000 =
      (RefreshOutcome.updated,
        some [("cursorAuth", RawValue.parsed (Json.obj
          [("accessToken", Json.str "NEW"), ("refreshToken", Json.str "R1"),
           ("expiresAt", Json.int ((2000000000 + 3600) * 1000))]))]) :=
  (C2_refresh_updates_record "cursorAuth" 2000000000 (by decide) (by decide)).1

/-- Whether the update loop writes this row: it must be matched by the
scan filter and hold a JSON-parseable dict containing `accessToken`. -/
def rowCandidate (kv : String × RawValue) : Bool :=
  matchesFilter kv.1 &&
    match kv.2 with
    | RawValue.parsed (Json.obj fields) => (lookupF "accessToken" fields).isSome
    | _ => false

/-- A committing run of the update loop rewrites exactly the candidate
rows (each through `rowUpdate`), leaves every other row — unparseable,
empty, non-dict, without `accessToken`, or unmatched — unchanged, and
counts exactly the candidate rows. -/
theorem updateRows_char (nt : List (String × Json)) (now : Int) :
    ∀ (rows l : Store) (cnt : Nat), updateRows nt now rows = some (l, cnt) →
      List.Forall₂ (fun rv lv =>
        (rowCandidate rv = false → lv = rv) ∧
        (rowCandidate rv = true → ∃ fields f2,
          rv.2 = RawValue.parsed (Json.obj fields) ∧
          rowUpdate nt now fields = some f2 ∧
          lv = (rv.1, RawValue.parsed (Json.obj f2)))) rows l ∧
      cnt = List.countP rowCandidate rows := by
  intro rows
  induction rows with
  | nil =>
    intro l cnt h
    unfold updateRows at h
    simp only [Option.some.injEq, Prod.mk.injEq] at h
    obtain ⟨hl, hc⟩ := h
    subst hl
    subst hc
    exact ⟨List.Forall₂.nil, by simp⟩
  | cons kv rest ih =>
    obtain ⟨k, v⟩ := kv
    intro l cnt h
    unfold updateRows at h
    by_cases hk : matchesFilter k
    · rw [if_pos hk] at h
      cases v with
      | parsed j =>
        cases j with
        | obj fields =>
          simp only [] at h
          by_cases hacc : (lookupF "accessToken" fields).isSome
          · rw [if_pos hacc] at h
            cases hru : rowUpdate nt now fields with
            | none =>
              rw [hru] at h
              simp at h
            | some f2 =>
              rw [hru] at h
              cases hur : updateRows nt now rest with
              | none =>
                rw [hur] at h
                simp at h
              | some p =>
                obtain ⟨l2, c2⟩ := p
                rw [hur] at h
                simp only [Option.some.injEq, Prod.mk.injEq] at h
                obtain ⟨hl, hc⟩ := h
                subst hl
                subst hc
                obtain ⟨hfa, hcnt⟩ := ih l2 c2 hur
                have hcand : rowCandidate (k, RawValue.parsed (Json.obj fields)) = true := by
                  simp [rowCandidate, hk, hacc]
                refine ⟨List.Forall₂.cons ⟨?_, ?_⟩ hfa, ?_⟩
                · intro hfalse
                  rw [hcand] at hfalse
                  cases hfalse
                · intro _
                  exact ⟨fields, f2, rfl, hru, rfl⟩
                · simp [List.countP_cons, hcand, hcnt]
          · rw [if_neg hacc] at h
            cases hur : updateRows nt now rest with
            | none =>
              rw [hur] at h
              simp at h
            | some p =>
              obtain ⟨l2, c2⟩ := p
              rw [hur] at h
              simp only [Option.some.injEq, Prod.mk.injEq] at h
              obtain ⟨hl, hc⟩ := h
              subst hl
              subst hc
              obtain ⟨hfa, hcnt⟩ := ih l2 c2 hur
              have hcand : rowCandidate (k, RawValue.parsed (Json.obj fields)) = false := by
                simp only [rowCandidate, Bool.and_eq_false_iff]
                right
                simp [hacc]
              refine ⟨List.Forall₂.cons ⟨fun _ => rfl, ?_⟩ hfa, ?_⟩
              · intro htrue
                rw [hcand] at htrue
                cases htrue
              · simp [List.countP_cons, hcand, hcnt]
        | null =>
          simp only [] at h
          cases hur : updateRows nt now rest with
          | none =>
            rw [hur] at h
            simp at h
          | some p =>
            obtain ⟨l2, c2⟩ := p
            rw [hur] at h
            simp only [Option.some.injEq, Prod.mk.injEq] at h
            obtain ⟨hl, hc⟩ := h
            subst hl
            subst hc
            obtain ⟨hfa, hcnt⟩ := ih l2 c2 hur
            refine ⟨List.Forall₂.cons ⟨fun _ => rfl, ?_⟩ hfa, ?_⟩
            · intro htrue
              simp [rowCandidate] at htrue
            · simp [List.countP_cons, rowCandidate, hcnt]
        | bool b =>
          simp only [] at h
          cases hur : updateRows nt now rest with
          | none =>
            rw [hur] at h
            simp at h
          | some p =>
            obtain ⟨l2, c2⟩ := p
            rw [hur] at h
            simp only [Option.some.injEq, Prod.mk.injEq] at h
            obtain ⟨hl, hc⟩ := h
            subst hl
            subst hc
            obtain ⟨hfa, hcnt⟩ := ih l2 c2 hur
            refine ⟨List.Forall₂.cons ⟨fun _ => rfl, ?_⟩ hfa, ?_⟩
            · intro htrue
              simp [rowCandidate] at htrue
            · simp [List.countP_cons, rowCandidate, hcnt]
        | int n =>
          simp only [] at h
          cases hur : updateRows nt now rest with
          | none =>
            rw [hur] at h
            simp at h
          | some p =>
            obtain ⟨l2, c2⟩ := p
            rw [hur] at h
            simp only [Option.some.injEq, Prod.mk.injEq] at h
            obtain ⟨hl, hc⟩ := h
            subst hl
            subst hc
            obtain ⟨hfa, hcnt⟩ := ih l2 c2 hur
            refine ⟨List.Forall₂.cons ⟨fun _ => rfl, ?_⟩ hfa, ?_⟩
            · intro htrue
              simp [rowCandidate] at htrue
            · simp [List.countP_cons, rowCandidate, hcnt]
        | str s =>
          simp only [] at h
          cases hur : updateRows nt now rest with
          | none =>
            rw [hur] at h
            simp at h
          | some p =>
            obtain ⟨l2, c2⟩ := p
            rw [hur] at h
            simp only [Option.some.injEq, Prod.mk.injEq] at h
            obtain ⟨hl, hc⟩ := h
            subst hl
            subst hc
            obtain ⟨hfa, hcnt⟩ := ih l2 c2 hur
            refine ⟨List.Forall₂.cons ⟨fun _ => rfl, ?_⟩ hfa, ?_⟩
            · intro htrue
              simp [rowCandidate] at htrue
            · simp [List.countP_cons, rowCandidate, hcnt]
        | arr xs =>
          simp only [] at h
          cases hur : updateRows nt now rest with
          | none =>
            rw [hur] at h
            simp at h
          | some p =>
            obtain ⟨l2, c2⟩ := p
            rw [hur] at h
            simp only [Option.some.injEq, Prod.mk.injEq] at h
            obtain ⟨hl, hc⟩ := h
            subst hl
            subst hc
            obtain ⟨hfa, hcnt⟩ := ih l2 c2 hur
            refine ⟨List.Forall₂.cons ⟨fun _ => rfl, ?_⟩ hfa, ?_⟩
            · intro htrue
              simp [rowCandidate] at htrue
            · simp [List.countP_cons, rowCandidate, hcnt]
      | unparseable s =>
          simp only [] at h
          cases hur : updateRows nt now rest with
          | none =>
            rw [hur] at h
            simp at h
          | some p =>
            obtain ⟨l2, c2⟩ := p
            rw [hur] at h
            simp only [Option.some.injEq, Prod.mk.injEq] at h
            obtain ⟨hl, hc⟩ := h
            subst hl
            subst hc
            obtain ⟨hfa, hcnt⟩ := ih l2 c2 hur
            refine ⟨List.Forall₂.cons ⟨fun _ => rfl, ?_⟩ hfa, ?_⟩
            · intro htrue
              simp [rowCandidate] at htrue
            · simp [List.countP_cons, rowCandidate, hcnt]
      | empty =>
          simp only [] at h
          cases hur : updateRows nt now rest with
          | none =>
            rw [hur] at h
            simp at h
          | some p =>
            obtain ⟨l2, c2⟩ := p
            rw [hur] at h
            simp only [Option.some.injEq, Prod.mk.injEq] at h
            obtain ⟨hl, hc⟩ := h
            subst hl
            subst hc
            obtain ⟨hfa, hcnt⟩ := ih l2 c2 hur
            refine ⟨List.Forall₂.cons ⟨fun _ => rfl, ?_⟩ hfa, ?_⟩
            · intro htrue
              simp [rowCandidate] at htrue
            · simp [List.countP_cons, rowCandidate, hcnt]
    · rw [if_neg hk] at h
      cases hur : updateRows nt now rest with
      | none =>
        rw [hur] at h
        simp at h
      | some p =>
        obtain ⟨l2, c2⟩ := p
        rw [hur] at h
        simp only [Option.some.injEq, Prod.mk.injEq] at h
        obtain ⟨hl, hc⟩ := h
        subst hl
        subst hc
        obtain ⟨hfa, hcnt⟩ := ih l2 c2 hur
        have hcand : rowCandidate (k, v) = false := by
          simp [rowCandidate, hk]
        refine ⟨List.Forall₂.cons ⟨fun _ => rfl, ?_⟩ hfa, ?_⟩
        · intro htrue
          rw [hcand] at htrue
          cases htrue
        · simp [List.countP_cons, hcand, hcnt]

/-- C6: the persist step skips records that are not JSON-parseable and
updates every parseable dict holding `accessToken`; the overall run
succeeds exactly when at least one record was written. Concretely: with one
parseable and one unparseable matched record only the former is rewritten
and the run succeeds; with a matched credential record carrying no
`accessToken` field nothing is written and the run ends at the distinct
`NoRecordsUpdated` failure; and in general, once the refresh call has
succeeded, the outcome is `updated` or `NoRecordsUpdated` according to
whether `update_token_in_db` reported a positive write count. -/
theorem C6_persist_skips_and_requires_write (k1 k2 : String) (now : Int)
    (hk1 : matchesFilter k1 = true) (hk2 : matchesFilter k2 = true)
    (hnow : 10 ^ 9 ≤ now) :
    refresh_if_needed
        (some [(k1, RawValue.parsed (Json.obj
            [("accessToken", Json.str "OLD"), ("refreshToken", Json.str "R1"),
             ("expiresAt", Json.int 5)])),
          (k2, RawValue.unparseable "corrupted bytes")])
        (some ⟨200, some (Json.obj
          [("access_token", Json.str "NEW"), ("expires_in", Json.int 3600)])⟩)
        now =
      (RefreshOutcome.updated,
        some [(k1, RawValue.parsed (Json.obj
            [("accessToken", Json.str "NEW"), ("refreshToken", Json.str "R1"),
             ("expiresAt", Json.int ((now + 3600) * 1000))])),
          (k2, RawValue.unparseable "corrupted bytes")]) ∧
      (refresh_if_needed
          (some [(k1, RawValue.parsed (Json.obj
            [("refreshToken", Json.str "R1"), ("expiresAt", Json.int 5)]))])
          (some ⟨200, some (Json.obj
            [("access_token", Json.str "NEW"), ("expires_in", Json.int 3600)])⟩)
          now =
        (RefreshOutcome.noRecordsUpdated,
          some [(k1, RawValue.parsed (Json.obj
            [("refreshToken", Json.str "R1"), ("expiresAt", Json.int 5)]))]) ∧
        RefreshOutcome.noRecordsUpdated.toBool = false) ∧
      (∀ (s : Store) (resp : Option HttpResp) (nt : Json),
        optFalsy (tokensOf s).refresh_token = false →
        check_token_expiry (tokensOf s).expires_at now = true →
        refresh_access_token resp = some nt →
        nt.falsy = false →
        refresh_if_needed (some s) resp now =
          ((if (update_token_in_db s nt now).2 then RefreshOutcome.updated
            else RefreshOutcome.noRecordsUpdated),
            some (update_token_in_db s nt now).1)) ∧
      ∀ (nt : List (String × Json)) (now2 : Int) (rows l : Store) (cnt : Nat),
        updateRows nt now2 rows = some (l, cnt) →
          List.Forall₂ (fun rv lv =>
            (rowCandidate rv = false → lv = rv) ∧
            (rowCandidate rv = true → ∃ fields f2,
              rv.2 = RawValue.parsed (Json.obj fields) ∧
              rowUpdate nt now2 fields = some f2 ∧
              lv = (rv.1, RawValue.parsed (Json.obj f2)))) rows l ∧
          cnt = List.countP rowCandidate rows := by
  have hexp5 : check_token_expiry (some (Json.int 5)) now = true := by
    simp only [check_token_expiry, Json.falsy]
    rw [if_neg (by decide), if_neg (by omega : ¬((5 : Int) > 10 ^ 12)),
      if_pos (by decide : fromtimestampOk 5 = true), decide_eq_true_eq]
    omega
  refine ⟨?_, ⟨?_, rfl⟩, ?_, fun nt now2 => updateRows_char nt now2⟩
  · have hti : tokensOf [(k1, RawValue.parsed (Json.obj
        [("accessToken", Json.str "OLD"), ("refreshToken", Json.str "R1"),
         ("expiresAt", Json.int 5)])),
        (k2, RawValue.unparseable "corrupted bytes")] =
        ⟨some (Json.str "OLD"), some (Json.str "R1"), some (Json.int 5)⟩ := by
      simp [tokensOf, scanEntries, hk1, hk2, extractTokens, tokenStep, loadEntry, lookupF]
    simp only [refresh_if_needed, hti, hexp5, optFalsy, Json.falsy, if_true]
    norm_num
    simp only [refresh_access_token, if_pos rfl]
    simp [update_token_in_db, updateRows, hk1, hk2, rowUpdate, lookupF, setF, sliceOk,
      Json.falsy, jsonSeconds]
  · have hti : tokensOf [(k1, RawValue.parsed (Json.obj
        [("refreshToken", Json.str "R1"), ("expiresAt", Json.int 5)]))] =
        ⟨none, some (Json.str "R1"), some (Json.int 5)⟩ := by
      simp [tokensOf, scanEntries, hk1, extractTokens, tokenStep, loadEntry, lookupF]
    simp only [refresh_if_needed, hti, hexp5, optFalsy, Json.falsy, if_true]
    norm_num
    simp only [refresh_access_token, if_pos rfl]
    simp [update_token_in_db, updateRows, hk1, rowUpdate, lookupF, setF, sliceOk,
      Json.falsy, jsonSeconds]
  · intro s resp nt hrt hexp hcall hfal
    simp only [refresh_if_needed, hrt, hexp, Bool.false_eq_true, if_false, if_true,
      hcall, hfal]

/-- Witness for C6 at concrete keys and clock. -/
theorem C6_witness :
    refresh_if_needed
        (some [("authA", RawValue.parsed (Json.obj
            [("accessToken", Json.str "OLD"), ("refreshToken", Json.str "R1"),
             ("expiresAt", Json.int 5)])),
          ("authB", RawValue.unparseable "corrupted bytes")])
        (some ⟨200, some (Json.obj
          [("access_token", Json.str "NEW"), ("expires_in", Json.int 3600)])⟩)
        2000000000 =
      (RefreshOutcome.updated,
        some [("authA", RawValue.parsed (Json.obj
            [("accessToken", Json.str "NEW"), ("refreshToken", Json.str "R1"),
             ("expiresAt", Json.int ((2000000000 + 3600) * 1000))])),
          ("authB", RawValue.unparseable "corrupted bytes")]) :=
  (C6_persist_skips_and_requires_write "authA" "authB" 2000000000
    (by decide) (by decide) (by decide)).1

/-- C7, counterexample: a 200 response whose JSON body has no `access_token`
field is still returned as a success result — the client never checks for
the field — refuting that success occurs exactly when the body contains at
least `access_token`. -/
theorem C7_counterexample :
    refresh_access_token (some ⟨200, some (Json.obj [("token_type", Json.str "bearer")])⟩) =
        some (Json.obj [("token_type", Json.str "bearer")]) ∧
      lookupF "access_token" [("token_type", Json.str "bearer")] = none := by
  exact ⟨rfl, rfl⟩

/-- C7, amended: the refresh client returns a success result exactly when
the HTTP response has status 200 and its body parses as JSON other than
`null` (a `null` body makes the Python function return `None`); the body is
returned as-is with no check for `access_token`. Non-200 statuses, network
failures/timeouts and unparseable bodies yield the failure value `None`,
which carries no status code or body (those are only logged), and the
single issued request is never retried by this function. -/
theorem C7_amended (resp : Option HttpResp) :
    (refresh_access_token resp).isSome = true ↔
      ∃ r j, resp = some r ∧ r.status = 200 ∧ r.body = some j ∧ j ≠ Json.null := by
  cases resp with
  | none => simp [refresh_access_token]
  | some r =>
    by_cases hs : r.status = 200
    · cases hb : r.body with
      | none => simp [refresh_access_token, hs, hb]
      | some j => cases j <;> simp [refresh_access_token, hs, hb]
    · simp [refresh_access_token, hs]

/-- Python's `jwt_token.split('.')`: splits a character sequence at every
dot, keeping empty segments. -/
def splitDot : List Char → List (List Char)
  | [] => [[]]
  | c :: rest =>
    match splitDot rest with
    | s :: ss => if c = '.' then [] :: s :: ss else (c :: s) :: ss
    | [] => [[c]]

/-- Value of one base64 character after the urlsafe translation
(`-`/`_` for 62/63, with `+`/`/` still accepted by the decoder). -/
def b64CharVal (c : Char) : Option Nat :=
  let n := c.toNat
  if 65 ≤ n ∧ n ≤ 90 then some (n - 65)
  else if 97 ≤ n ∧ n ≤ 122 then some (n - 71)
  else if 48 ≤ n ∧ n ≤ 57 then some (n + 4)
  else if n = 45 ∨ n = 43 then some 62
  else if n = 95 ∨ n = 47 then some 63
  else none

/-- The urlsafe base64 alphabet character for a 6-bit value. -/
def b64ValToChar (v : Nat) : Char :=
  if v < 26 then Char.ofNat (65 + v)
  else if v < 52 then Char.ofNat (71 + v)
  else if v < 62 then Char.ofNat (v - 4)
  else if v = 62 then Char.ofNat 45
  else Char.ofNat 95

/-- 6-bit groups of a byte sequence (unpadded base64, as JWT producers
emit): three bytes to four values, with two- or three-value tails. -/
def b64encodeVals : List Nat → List Nat
  | [] => []
  | [x] => [x / 4, x % 4 * 16]
  | [x, y] => [x / 4, x % 4 * 16 + y / 16, y % 16 * 4]
  | x :: y :: z :: rest =>
    (x / 4) :: (x % 4 * 16 + y / 16) :: (y % 16 * 4 + z / 64) :: (z % 64) :: b64encodeVals rest

/-- Unpadded urlsafe base64 encoding of a byte sequence. Modelled from the
spec: the compact token format's segments are base64url-encoded without
padding; the repository contains no encoder, only the decoder. -/
def b64encodeL (bs : List Nat) : List Char :=
  (b64encodeVals bs).map b64ValToChar

/-- Bytes of a sequence of 6-bit values as `binascii` assembles them: full
four-value groups give three bytes, a final pair or triple gives one or two
bytes with the spare low bits dropped, and a lone trailing value is
invalid padding. -/
def b64decodeVals : List Nat → Option (List Nat)
  | [] => some []
  | [_] => none
  | [a, b] => some [a * 4 + b / 16]
  | [a, b, c] => some [a * 4 + b / 16, b % 16 * 16 + c / 4]
  | a :: b :: c :: d :: rest =>
    match b64decodeVals rest with
    | some l => some ((a * 4 + b / 16) :: (b % 16 * 16 + c / 4) :: (c % 4 * 64 + d) :: l)
    | none => none

/-- `base64.urlsafe_b64decode` as exercised by the decoder: data characters
followed by trailing `=` padding (excess padding is ignored, as CPython's
non-strict `a2b_base64` does); without any padding the data length must be
a multiple of four. Inputs with non-alphabet data characters or padding in
the middle are rejected by this model. -/
def b64decodeL (s : List Char) : Option (List Nat) :=
  let body := s.takeWhile (fun c => c != '=')
  let pad := s.dropWhile (fun c => c != '=')
  if pad.all (fun c => c == '=') && (!pad.isEmpty || body.length % 4 == 0) then
    match body.mapM b64CharVal with
    | some vals => b64decodeVals vals
    | none => none
  else none

/-- The padding step `payload += '=' * (4 - len(payload) % 4)` of
`decode_jwt_payload`: always appends between one and four `=` characters —
four of them when the length is already a multiple of four. -/
def padB64 (p : List Char) : List Char :=
  p ++ List.replicate (4 - p.length % 4) '='

/-- One serialized string byte: `json.dumps` escapes a quote or backslash
with a backslash (the model covers printable ASCII content, the only
content this repository round-trips). -/
def escByte (b : Nat) : List Nat :=
  if b = 34 ∨ b = 92 then [92, b] else [b]

/-- The escaped bytes of a string's characters. -/
def escBytes (cs : List Char) : List Nat :=
  cs.foldr (fun c acc => escByte c.toNat ++ acc) []

/-- A serialized JSON string: quote, escaped content, quote. -/
def strBytes (s : String) : List Nat :=
  34 :: escBytes s.data ++ [34]

/-- Reversed decimal digit bytes of a positive number, with enough fuel. -/
def natDigitsRev : Nat → Nat → List Nat
  | 0, _ => []
  | _ + 1, 0 => []
  | fuel + 1, n + 1 => ((n + 1) % 10 + 48) :: natDigitsRev fuel ((n + 1) / 10)

/-- Decimal digit bytes of a natural number. -/
def natDecimal (n : Nat) : List Nat :=
  if n = 0 then [48] else (natDigitsRev n n).reverse

/-- Decimal digit bytes of an integer, with a leading minus sign byte. -/
def intDecimal (n : Int) : List Nat :=
  if n < 0 then 45 :: natDecimal n.natAbs else natDecimal n.toNat

mutual
/-- Serialization of a JSON value to bytes, modelling `json.dumps` with its
default separators (`", "` and `": "`, ASCII output). The repository has no
JSON encoder of its own; this models the `json` library for the round-trip
property, on values whose strings are printable ASCII. `dumpsArr` and
`dumpsObj` serialize the comma-separated element and member lists. -/
def dumpsVal : Json → List Nat
  | Json.null => [110, 117, 108, 108]
  | Json.bool true => [116, 114, 117, 101]
  | Json.bool false => [102, 97, 108, 115, 101]
  | Json.int n => intDecimal n
  | Json.str s => strBytes s
  | Json.arr xs => 91 :: dumpsArr xs ++ [93]
  | Json.obj kvs => 123 :: dumpsObj kvs ++ [125]
def dumpsArr : List Json → List Nat
  | [] => []
  | [x] => dumpsVal x
  | x :: y :: rest => dumpsVal x ++ 44 :: 32 :: dumpsArr (y :: rest)
def dumpsObj : List (String × Json) → List Nat
  | [] => []
  | [(k, v)] => strBytes k ++ 58 :: 32 :: dumpsVal v
  | (k, v) :: kv :: rest =>
    strBytes k ++ 58 :: 32 :: dumpsVal v ++ 44 :: 32 :: dumpsObj (kv :: rest)
end

/-- Whether every character of the string is printable ASCII (the domain on
which the serialization model is byte-faithful to `json.dumps`). -/
def asciiSafeStr (s : String) : Bool :=
  s.data.all (fun c => 32 ≤ c.toNat && c.toNat ≤ 126)

mutual
/-- Whether every string and key inside a JSON value is printable ASCII. -/
def asciiSafe : Json → Bool
  | Json.str s => asciiSafeStr s
  | Json.arr xs => asciiSafeA xs
  | Json.obj kvs => asciiSafeO kvs
  | _ => true
def asciiSafeA : List Json → Bool
  | [] => true
  | x :: rest => asciiSafe x && asciiSafeA rest
def asciiSafeO : List (String × Json) → Bool
  | [] => true
  | (k, v) :: rest => asciiSafeStr k && asciiSafe v && asciiSafeO rest
end

/-- Parses a serialized string body up to its closing quote, undoing the
two modelled escapes. -/
def parseStrBytes : List Nat → Option (List Char × List Nat)
  | [] => none
  | b :: rest =>
    if b = 34 then some ([], rest)
    else if b = 92 then
      match rest with
      | [] => none
      | b2 :: rest2 =>
        if b2 = 34 ∨ b2 = 92 then
          match parseStrBytes rest2 with
          | some (cs, r) => some (Char.ofNat b2 :: cs, r)
          | none => none
        else none
    else if 32 ≤ b ∧ b ≤ 126 then
      match parseStrBytes rest with
      | some (cs, r) => some (Char.ofNat b :: cs, r)
      | none => none
    else none

/-- Splits the longest leading run of decimal digit bytes. -/
def parseDigits : List Nat → List Nat × List Nat
  | [] => ([], [])
  | b :: rest =>
    if 48 ≤ b ∧ b ≤ 57 then
      let p := parseDigits rest
      (b :: p.1, p.2)
    else ([], b :: rest)

/-- Value of a run of decimal digit bytes. -/
def digitsVal (ds : List Nat) : Nat :=
  ds.foldl (fun acc d => acc * 10 + (d - 48)) 0

/-- Parses a (possibly negative) decimal integer. -/
def parseIntB : List Nat → Option (Int × List Nat)
  | [] => none
  | b :: rest =>
    if b = 45 then
      match parseDigits rest with
      | ([], _) => none
      | (ds, r) => some (-(digitsVal ds : Int), r)
    else
      match parseDigits (b :: rest) with
      | ([], _) => none
      | (ds, r) => some ((digitsVal ds : Int), r)

/-- Consumes an expected literal byte sequence, returning the remainder. -/
def expectBytes : List Nat → List Nat → Option (List Nat)
  | [], input => some input
  | _ :: _, [] => none
  | p :: ps, b :: rest => if b = p then expectBytes ps rest else none

/-- One dispatch step of the JSON value parser, with the bracket
sub-parsers passed in (they carry the remaining fuel). -/
def parseValCore (pArr : List Nat → Option (List Json × List Nat))
    (pObj : List Nat → Option (List (String × Json) × List Nat))
    (input : List Nat) : Option (Json × List Nat) :=
  match input with
  | [] => none
  | b :: rest =>
    if b = 110 then
      match expectBytes [117, 108, 108] rest with
      | some r => some (Json.null, r)
      | none => none
    else if b = 116 then
      match expectBytes [114, 117, 101] rest with
      | some r => some (Json.bool true, r)
      | none => none
    else if b = 102 then
      match expectBytes [97, 108, 115, 101] rest with
      | some r => some (Json.bool false, r)
      | none => none
    else if b = 34 then
      match parseStrBytes rest with
      | some (cs, r) => some (Json.str (String.mk cs), r)
      | none => none
    else if b = 91 then
      match rest with
      | [] => none
      | r1 :: rtail =>
        if r1 = 93 then some (Json.arr [], rtail)
        else
          match pArr (r1 :: rtail) with
          | some (xs, r2) => some (Json.arr xs, r2)
          | none => none
    else if b = 123 then
      match rest with
      | [] => none
      | r1 :: rtail =>
        if r1 = 125 then some (Json.obj [], rtail)
        else
          match pObj (r1 :: rtail) with
          | some (kvs, r2) => some (Json.obj kvs, r2)
          | none => none
    else
      match parseIntB (b :: rest) with
      | some (n, r) => some (Json.int n, r)
      | none => none

/-- One step of the comma-separated array-element list parser. -/
def parseArrCore (pVal : List Nat → Option (Json × List Nat))
    (pRec : List Nat → Option (List Json × List Nat))
    (input : List Nat) : Option (List Json × List Nat) :=
  match pVal input with
  | none => none
  | some (j, r) =>
    match r with
    | [] => none
    | c1 :: r2 =>
      if c1 = 93 then some ([j], r2)
      else if c1 = 44 then
        match r2 with
        | [] => none
        | c2 :: r3 =>
          if c2 = 32 then
            match pRec r3 with
            | some (xs, r4) => some (j :: xs, r4)
            | none => none
          else none
      else none

/-- One step of the comma-separated object-member list parser. -/
def parseObjCore (pVal : List Nat → Option (Json × List Nat))
    (pRec : List Nat → Option (List (String × Json) × List Nat))
    (input : List Nat) : Option (List (String × Json) × List Nat) :=
  match input with
  | [] => none
  | c0 :: r0 =>
    if c0 = 34 then
      match parseStrBytes r0 with
      | none => none
      | some (cs, r1) =>
        match r1 with
        | [] => none
        | c1 :: r2 =>
          if c1 = 58 then
            match r2 with
            | [] => none
            | c2 :: r3 =>
              if c2 = 32 then
                match pVal r3 with
                | none => none
                | some (v, r4) =>
                  match r4 with
                  | [] => none
                  | c3 :: r5 =>
                    if c3 = 125 then some ([(String.mk cs, v)], r5)
                    else if c3 = 44 then
                      match r5 with
                      | [] => none
                      | c4 :: r6 =>
                        if c4 = 32 then
                          match pRec r6 with
                          | some (kvs, r7) => some ((String.mk cs, v) :: kvs, r7)
                          | none => none
                        else none
                    else none
              else none
          else none
    else none

mutual
/-- Recursive-descent JSON parser over bytes, modelling `json.loads` on the
canonical texts `dumpsVal` emits (and rejecting non-JSON byte sequences).
The fuel bounds the bracket-nesting/element recursion and strictly
decreases on every recursive call; with zero fuel the bracket sub-parsers
reject. -/
def parseVal : Nat → List Nat → Option (Json × List Nat)
  | 0, input => parseValCore (fun _ => none) (fun _ => none) input
  | f + 1, input => parseValCore (parseArr f) (parseObj f) input
def parseArr : Nat → List Nat → Option (List Json × List Nat)
  | 0, _ => none
  | f + 1, input => parseArrCore (parseVal f) (parseArr f) input
def parseObj : Nat → List Nat → Option (List (String × Json) × List Nat)
  | 0, _ => none
  | f + 1, input => parseObjCore (parseVal f) (parseObj f) input
end

/-- `json.loads(bytes.decode('utf-8'))` over the byte sequence: the whole
input must parse as one JSON value. Non-JSON bytes (including bytes that
are not text at all) yield `none`. -/
def jsonLoadsBytes (bs : List Nat) : Option Json :=
  match parseVal (bs.length + 1) bs with
  | some (j, []) => some j
  | _ => none

/-- The error kinds of `decode_jwt_payload`, distinguished by the exception
class reaching the handler: a dedicated early return for a wrong segment
count, `binascii.Error` from base64 for bad padding or data, and a decode
failure of the resulting bytes as JSON text. -/
inductive JwtError where
  | malformedToken
  | encodingError
  | payloadNotJSON
deriving DecidableEq

/-- `JWTAnalyzer.decode_jwt_payload`: split on dots into exactly three
segments, pad the middle segment with `'=' * (4 - len % 4)`, urlsafe
base64-decode it, and parse the bytes as JSON. -/
def decode_jwt_payload (tok : List Char) : Except JwtError Json :=
  match splitDot tok with
  | [_, payload, _] =>
    match b64decodeL (padB64 payload) with
    | some bs =>
      match jsonLoadsBytes bs with
      | some j => Except.ok j
      | none => Except.error JwtError.payloadNotJSON
    | none => Except.error JwtError.encodingError
  | _ => Except.error JwtError.malformedToken

/-- Whether a segment contains no dot. -/
def dotFree (l : List Char) : Bool :=
  l.all (fun c => c != '.')

/-- Modelled from the spec: encoding a claims mapping into the three-segment
compact form (header `.` base64url payload `.` signature); the repository
only ships the decoder, so the encoder is taken from the spec's compact
token format. -/
def encodeCompact (header sig : List Char) (c : Json) : List Char :=
  header ++ '.' :: b64encodeL (dumpsVal c) ++ '.' :: sig

theorem natDigitsRev_digits (fuel : Nat) :
    ∀ n, ∀ b ∈ natDigitsRev fuel n, 48 ≤ b ∧ b ≤ 57 := by
  induction fuel with
  | zero => intro n b hb; simp [natDigitsRev] at hb
  | succ f ih =>
    intro n b hb
    cases n with
    | zero => simp [natDigitsRev] at hb
    | succ m =>
      simp only [natDigitsRev, List.mem_cons] at hb
      rcases hb with h | h
      · omega
      · exact ih _ b h

theorem natDecimal_digits (n : Nat) : ∀ b ∈ natDecimal n, 48 ≤ b ∧ b ≤ 57 := by
  intro b hb
  unfold natDecimal at hb
  split at hb
  · simp at hb; omega
  · rw [List.mem_reverse] at hb
    exact natDigitsRev_digits n n b hb

theorem natDecimal_ne_nil (n : Nat) : natDecimal n ≠ [] := by
  unfold natDecimal
  split
  · simp
  · rename_i h
    obtain ⟨m, rfl⟩ : ∃ m, n = m + 1 := ⟨n - 1, by omega⟩
    simp [natDigitsRev]

theorem digitsRev_val (fuel : Nat) :
    ∀ n acc, n ≤ fuel →
      List.foldl (fun acc d => acc * 10 + (d - 48)) acc (natDigitsRev fuel n).reverse =
        acc * 10 ^ (natDigitsRev fuel n).length + n := by
  induction fuel with
  | zero =>
    intro n acc h
    have hn : n = 0 := by omega
    subst hn
    simp [natDigitsRev]
  | succ f ih =>
    intro n acc h
    cases n with
    | zero => simp [natDigitsRev]
    | succ m =>
      simp only [natDigitsRev, List.reverse_cons, List.foldl_append, List.foldl_cons,
        List.foldl_nil, List.length_cons]
      rw [ih ((m + 1) / 10) acc (by omega)]
      rw [pow_succ, ← mul_assoc]
      generalize acc * 10 ^ (natDigitsRev f ((m + 1) / 10)).length = X
      omega

theorem digitsVal_natDecimal (n : Nat) : digitsVal (natDecimal n) = n := by
  unfold digitsVal natDecimal
  split
  · rename_i h
    subst h
    rfl
  · rw [digitsRev_val n n 0 (le_refl n)]
    simp

/-- Whether the input does not begin with a decimal digit byte (so a greedy
digit run stops exactly at its start). -/
def noDigitHead : List Nat → Prop
  | [] => True
  | b :: _ => ¬(48 ≤ b ∧ b ≤ 57)

theorem parseDigits_app (ds : List Nat) (rest : List Nat)
    (hds : ∀ b ∈ ds, 48 ≤ b ∧ b ≤ 57) (hr : noDigitHead rest) :
    parseDigits (ds ++ rest) = (ds, rest) := by
  induction ds with
  | nil =>
    simp only [List.nil_append]
    cases rest with
    | nil => rfl
    | cons b t =>
      simp only [parseDigits]
      rw [if_neg hr]
  | cons d t ih =>
    simp only [List.cons_append, parseDigits, List.append_eq]
    rw [if_pos (hds d (by simp))]
    rw [ih (fun b hb => hds b (by simp [hb]))]

theorem parseIntB_intDecimal (n : Int) (rest : List Nat) (hr : noDigitHead rest) :
    parseIntB (intDecimal n ++ rest) = some (n, rest) := by
  by_cases hn : n < 0
  · rw [intDecimal, if_pos hn]
    obtain ⟨d, ds, hds⟩ : ∃ d ds, natDecimal n.natAbs = d :: ds := by
      cases h : natDecimal n.natAbs with
      | nil => exact absurd h (natDecimal_ne_nil _)
      | cons d ds => exact ⟨d, ds, rfl⟩
    simp only [List.cons_append, parseIntB, if_pos rfl]
    rw [parseDigits_app _ _ (natDecimal_digits _) hr]
    simp only [hds]
    have h1 : digitsVal (d :: ds) = n.natAbs := by rw [← hds, digitsVal_natDecimal]
    rw [h1]
    have h2 : -((n.natAbs : Nat) : Int) = n := by omega
    rw [h2]
    simp
  · rw [intDecimal, if_neg hn]
    obtain ⟨d, ds, hds⟩ : ∃ d ds, natDecimal n.toNat = d :: ds := by
      cases h : natDecimal n.toNat with
      | nil => exact absurd h (natDecimal_ne_nil _)
      | cons d ds => exact ⟨d, ds, rfl⟩
    have hd : 48 ≤ d ∧ d ≤ 57 := natDecimal_digits n.toNat d (by rw [hds]; simp)
    rw [hds]
    simp only [List.cons_append, parseIntB]
    rw [if_neg (by omega : ¬ d = 45)]
    rw [show d :: (ds ++ rest) = (d :: ds) ++ rest from rfl, ← hds]
    rw [parseDigits_app _ _ (natDecimal_digits _) hr]
    simp only [hds]
    have h1 : digitsVal (d :: ds) = n.toNat := by rw [← hds, digitsVal_natDecimal]
    rw [h1]
    have h2 : ((n.toNat : Nat) : Int) = n := by omega
    rw [h2]

theorem escBytes_cons (c : Char) (t : List Char) :
    escBytes (c :: t) = escByte c.toNat ++ escBytes t := rfl

theorem parseStr_quote (rest : List Nat) : parseStrBytes (34 :: rest) = some ([], rest) := by
  unfold parseStrBytes
  simp

theorem parseStr_esc (b : Nat) (rest : List Nat) (hb : b = 34 ∨ b = 92) :
    parseStrBytes (92 :: b :: rest) =
      match parseStrBytes rest with
      | some (cs, r) => some (Char.ofNat b :: cs, r)
      | none => none := by
  conv_lhs => rw [parseStrBytes.eq_def]
  simp [hb]

theorem parseStr_plain (b : Nat) (rest : List Nat) (h1 : ¬ b = 34) (h2 : ¬ b = 92) :
    parseStrBytes (b :: rest) =
      if 32 ≤ b ∧ b ≤ 126 then
        match parseStrBytes rest with
        | some (cs, r) => some (Char.ofNat b :: cs, r)
        | none => none
      else none := by
  conv_lhs => rw [parseStrBytes.eq_def]
  simp [h1, h2]

theorem parseStr_escBytes (cs : List Char)
    (h : ∀ c ∈ cs, 32 ≤ c.toNat ∧ c.toNat ≤ 126) (rest : List Nat) :
    parseStrBytes (escBytes cs ++ 34 :: rest) = some (cs, rest) := by
  induction cs with
  | nil =>
    simp only [escBytes, List.foldr_nil, List.nil_append]
    exact parseStr_quote rest
  | cons c t ih =>
    have hc := h c (by simp)
    have ht : ∀ c2 ∈ t, 32 ≤ c2.toNat ∧ c2.toNat ≤ 126 := fun c2 hc2 => h c2 (by simp [hc2])
    by_cases he : c.toNat = 34 ∨ c.toNat = 92
    · rw [escBytes_cons, show escByte c.toNat = [92, c.toNat] from by simp [escByte, he]]
      rw [show ([92, c.toNat] ++ escBytes t) ++ 34 :: rest =
        92 :: c.toNat :: (escBytes t ++ 34 :: rest) from by simp]
      rw [parseStr_esc _ _ he, ih ht, Char.ofNat_toNat]
    · have h34 : ¬ c.toNat = 34 := fun h2 => he (Or.inl h2)
      have h92 : ¬ c.toNat = 92 := fun h2 => he (Or.inr h2)
      rw [escBytes_cons, show escByte c.toNat = [c.toNat] from by simp [escByte, he]]
      rw [show ([c.toNat] ++ escBytes t) ++ 34 :: rest =
        c.toNat :: (escBytes t ++ 34 :: rest) from by simp]
      rw [parseStr_plain _ _ h34 h92, if_pos (And.intro hc.1 hc.2), ih ht, Char.ofNat_toNat]

theorem takeWhile_app_all {α : Type} (p : α → Bool) (l1 l2 : List α)
    (h : ∀ c ∈ l1, p c = true) :
    (l1 ++ l2).takeWhile p = l1 ++ l2.takeWhile p := by
  induction l1 with
  | nil => simp
  | cons a t ih =>
    simp only [List.cons_append, List.takeWhile_cons, h a (by simp), if_true]
    rw [ih (fun c hc => h c (by simp [hc]))]

theorem dropWhile_app_all {α : Type} (p : α → Bool) (l1 l2 : List α)
    (h : ∀ c ∈ l1, p c = true) :
    (l1 ++ l2).dropWhile p = l2.dropWhile p := by
  induction l1 with
  | nil => simp
  | cons a t ih =>
    simp only [List.cons_append, List.dropWhile_cons, h a (by simp), if_true]
    exact ih (fun c hc => h c (by simp [hc]))

theorem charVal_valToChar : ∀ v, v < 64 → b64CharVal (b64ValToChar v) = some v := by decide

theorem valToChar_ne_eq : ∀ v, v < 64 → (b64ValToChar v != Char.ofNat 61) = true := by decide

theorem valToChar_ne_dot : ∀ v, v < 64 → ¬ b64ValToChar v = Char.ofNat 46 := by decide

/-- Recursion principle matching the three-byte chunking of base64. -/
def chunk3Rec {α : Type} {motive : List α → Prop}
    (h0 : motive []) (h1 : ∀ x, motive [x]) (h2 : ∀ x y, motive [x, y])
    (h3 : ∀ x y z rest, motive rest → motive (x :: y :: z :: rest)) :
    ∀ l, motive l
  | [] => h0
  | [x] => h1 x
  | [x, y] => h2 x y
  | x :: y :: z :: rest => h3 x y z rest (chunk3Rec h0 h1 h2 h3 rest)

theorem b64encodeVals_lt (bs : List Nat) (h : ∀ b ∈ bs, b < 256) :
    ∀ v ∈ b64encodeVals bs, v < 64 := by
  induction bs using chunk3Rec with
  | h0 => simp [b64encodeVals]
  | h1 x =>
    have hx := h x (by simp)
    intro v hv
    simp only [b64encodeVals, List.mem_cons, List.not_mem_nil, or_false] at hv
    rcases hv with h2 | h2 <;> omega
  | h2 x y =>
    have hx := h x (by simp)
    have hy := h y (by simp)
    intro v hv
    simp only [b64encodeVals, List.mem_cons, List.not_mem_nil, or_false] at hv
    rcases hv with h2 | h2 | h2 <;> omega
  | h3 x y z rest ih =>
    have hx := h x (by simp)
    have hy := h y (by simp)
    have hz := h z (by simp)
    have ihr := ih (fun b hb => h b (by simp [hb]))
    intro v hv
    simp only [b64encodeVals, List.mem_cons] at hv
    rcases hv with h2 | h2 | h2 | h2 | h2
    · omega
    · omega
    · omega
    · omega
    · exact ihr v h2

theorem b64_vals_roundtrip (bs : List Nat) (h : ∀ b ∈ bs, b < 256) :
    b64decodeVals (b64encodeVals bs) = some bs := by
  induction bs using chunk3Rec with
  | h0 => rfl
  | h1 x =>
    have hx := h x (by simp)
    simp only [b64encodeVals, b64decodeVals, Option.some.injEq, List.cons.injEq, and_true]
    omega
  | h2 x y =>
    have hx := h x (by simp)
    have hy := h y (by simp)
    simp only [b64encodeVals, b64decodeVals, Option.some.injEq, List.cons.injEq, and_true]
    refine ⟨by omega, by omega⟩
  | h3 x y z rest ih =>
    have hx := h x (by simp)
    have hy := h y (by simp)
    have hz := h z (by simp)
    have ihr := ih (fun b hb => h b (by simp [hb]))
    simp only [b64encodeVals, b64decodeVals, ihr, Option.some.injEq, List.cons.injEq]
    refine ⟨by omega, by omega, by omega, trivial⟩

theorem mapM_map_charVal (vals : List Nat) (h : ∀ v ∈ vals, v < 64) :
    (vals.map b64ValToChar).mapM b64CharVal = some vals := by
  induction vals with
  | nil => rfl
  | cons v t ih =>
    simp only [List.map_cons, List.mapM_cons, charVal_valToChar v (h v (by simp)),
      ih (fun w hw => h w (by simp [hw])), Option.pure_def, Option.bind_eq_bind,
      Option.some_bind]

theorem b64_roundtrip (bs : List Nat) (h : ∀ b ∈ bs, b < 256) :
    b64decodeL (padB64 (b64encodeL bs)) = some bs := by
  have hv := b64encodeVals_lt bs h
  have hchars : ∀ c ∈ (b64encodeVals bs).map b64ValToChar, (c != '=') = true := by
    intro c hc
    rw [List.mem_map] at hc
    obtain ⟨v, hvm, rfl⟩ := hc
    exact valToChar_ne_eq v (hv v hvm)
  simp only [padB64, b64encodeL, b64decodeL]
  rw [takeWhile_app_all _ _ _ hchars, dropWhile_app_all _ _ _ hchars]
  have hm : 4 - ((b64encodeVals bs).map b64ValToChar).length % 4 ≠ 0 := by
    have : ((b64encodeVals bs).map b64ValToChar).length % 4 < 4 := by omega
    omega
  have htake : (List.replicate (4 - ((b64encodeVals bs).map b64ValToChar).length % 4)
      '=').takeWhile (fun c => c != '=') = [] := by
    cases hmm : 4 - ((b64encodeVals bs).map b64ValToChar).length % 4 with
    | zero => simp
    | succ m => simp [List.replicate, List.takeWhile_cons]
  have hdrop : (List.replicate (4 - ((b64encodeVals bs).map b64ValToChar).length % 4)
      '=').dropWhile (fun c => c != '=') =
      List.replicate (4 - ((b64encodeVals bs).map b64ValToChar).length % 4) '=' := by
    cases hmm : 4 - ((b64encodeVals bs).map b64ValToChar).length % 4 with
    | zero => simp
    | succ m => simp [List.replicate, List.dropWhile_cons]
  rw [htake, hdrop, List.append_nil]
  have hcond : ((List.replicate (4 - ((b64encodeVals bs).map b64ValToChar).length % 4)
      '=').all (fun c => c == '=') &&
      (!(List.replicate (4 - ((b64encodeVals bs).map b64ValToChar).length % 4)
        '=').isEmpty ||
        ((b64encodeVals bs).map b64ValToChar).length % 4 == 0)) = true := by
    obtain ⟨mm, hmm⟩ : ∃ mm,
        4 - ((b64encodeVals bs).map b64ValToChar).length % 4 = mm + 1 :=
      ⟨3 - ((b64encodeVals bs).map b64ValToChar).length % 4, by omega⟩
    rw [hmm, List.replicate_succ]
    simp [List.mem_replicate]
  rw [if_pos hcond]
  rw [mapM_map_charVal _ hv]
  exact b64_vals_roundtrip bs h

theorem splitDot_ne_nil (l : List Char) : splitDot l ≠ [] := by
  induction l with
  | nil => simp [splitDot]
  | cons c t ih =>
    simp only [splitDot]
    cases h : splitDot t with
    | nil => exact absurd h ih
    | cons s ss => by_cases hc : c = '.' <;> simp [hc]

theorem splitDot_no_dot (l : List Char) (h : ∀ c ∈ l, ¬ c = '.') : splitDot l = [l] := by
  induction l with
  | nil => rfl
  | cons c t ih =>
    simp only [splitDot, ih (fun c2 hc2 => h c2 (by simp [hc2]))]
    rw [if_neg (h c (by simp))]

theorem splitDot_app (l1 l2 : List Char) (h : ∀ c ∈ l1, ¬ c = '.') :
    splitDot (l1 ++ '.' :: l2) = l1 :: splitDot l2 := by
  induction l1 with
  | nil =>
    simp only [List.nil_append, splitDot]
    cases hs : splitDot l2 with
    | nil => exact absurd hs (splitDot_ne_nil l2)
    | cons s ss => simp
  | cons c t ih =>
    simp only [List.cons_append, splitDot, List.append_eq,
      ih (fun c2 hc2 => h c2 (by simp [hc2]))]
    rw [if_neg (h c (by simp))]

theorem intDecimal_head (n : Int) :
    ∃ d t, intDecimal n = d :: t ∧ ((48 ≤ d ∧ d ≤ 57) ∨ d = 45) := by
  unfold intDecimal
  split
  · exact ⟨45, natDecimal n.natAbs, rfl, Or.inr rfl⟩
  · cases h : natDecimal n.toNat with
    | nil => exact absurd h (natDecimal_ne_nil _)
    | cons d t =>
      refine ⟨d, t, rfl, Or.inl ?_⟩
      exact natDecimal_digits n.toNat d (by rw [h]; simp)

/-- The first byte of a serialized JSON value is never a closer, separator
or space byte. -/
theorem dumpsVal_head (j : Json) :
    ∃ b t, dumpsVal j = b :: t ∧ b ≠ 93 ∧ b ≠ 125 ∧ b ≠ 44 ∧ b ≠ 32 := by
  cases j with
  | null => exact ⟨110, _, rfl, by omega, by omega, by omega, by omega⟩
  | bool b =>
    cases b with
    | true => exact ⟨116, _, rfl, by omega, by omega, by omega, by omega⟩
    | false => exact ⟨102, _, rfl, by omega, by omega, by omega, by omega⟩
  | int n =>
    obtain ⟨d, t, hdt, hd⟩ := intDecimal_head n
    exact ⟨d, t, hdt, by omega, by omega, by omega, by omega⟩
  | str s => exact ⟨34, _, rfl, by omega, by omega, by omega, by omega⟩
  | arr xs => exact ⟨91, _, rfl, by omega, by omega, by omega, by omega⟩
  | obj kvs => exact ⟨123, _, rfl, by omega, by omega, by omega, by omega⟩

mutual
/-- Fuel needed by the parser for one value (one unit per bracket entered
and per list element). -/
def needV : Json → Nat
  | Json.arr xs => 1 + needA xs
  | Json.obj kvs => 1 + needO kvs
  | _ => 1
def needA : List Json → Nat
  | [] => 1
  | [x] => 1 + needV x
  | x :: y :: rest => 1 + needV x + needA (y :: rest)
def needO : List (String × Json) → Nat
  | [] => 1
  | [(_, v)] => 1 + needV v
  | (_, v) :: kv :: rest => 1 + needV v + needO (kv :: rest)
end

theorem parseValCore_null (pArr : List Nat → Option (List Json × List Nat))
    (pObj : List Nat → Option (List (String × Json) × List Nat)) (r : List Nat) :
    parseValCore pArr pObj (110 :: 117 :: 108 :: 108 :: r) = some (Json.null, r) := by
  unfold parseValCore
  simp [expectBytes]

theorem parseValCore_true (pArr : List Nat → Option (List Json × List Nat))
    (pObj : List Nat → Option (List (String × Json) × List Nat)) (r : List Nat) :
    parseValCore pArr pObj (116 :: 114 :: 117 :: 101 :: r) = some (Json.bool true, r) := by
  unfold parseValCore
  simp [expectBytes]

theorem parseValCore_false (pArr : List Nat → Option (List Json × List Nat))
    (pObj : List Nat → Option (List (String × Json) × List Nat)) (r : List Nat) :
    parseValCore pArr pObj (102 :: 97 :: 108 :: 115 :: 101 :: r) =
      some (Json.bool false, r) := by
  unfold parseValCore
  simp [expectBytes]

theorem parseValCore_str (pArr : List Nat → Option (List Json × List Nat))
    (pObj : List Nat → Option (List (String × Json) × List Nat)) (rest : List Nat) :
    parseValCore pArr pObj (34 :: rest) =
      match parseStrBytes rest with
      | some (cs, r) => some (Json.str (String.mk cs), r)
      | none => none := by
  unfold parseValCore
  simp

theorem parseValCore_int (pArr : List Nat → Option (List Json × List Nat))
    (pObj : List Nat → Option (List (String × Json) × List Nat)) (b : Nat) (rest : List Nat)
    (hb : (48 ≤ b ∧ b ≤ 57) ∨ b = 45) :
    parseValCore pArr pObj (b :: rest) =
      match parseIntB (b :: rest) with
      | some (n, r) => some (Json.int n, r)
      | none => none := by
  unfold parseValCore
  have h110 : ¬ b = 110 := by omega
  have h116 : ¬ b = 116 := by omega
  have h102 : ¬ b = 102 := by omega
  have h34 : ¬ b = 34 := by omega
  have h91 : ¬ b = 91 := by omega
  have h123 : ¬ b = 123 := by omega
  simp [h110, h116, h102, h34, h91, h123]

theorem parseValCore_arr_empty (pArr : List Nat → Option (List Json × List Nat))
    (pObj : List Nat → Option (List (String × Json) × List Nat)) (r : List Nat) :
    parseValCore pArr pObj (91 :: 93 :: r) = some (Json.arr [], r) := by
  unfold parseValCore
  simp

theorem parseValCore_arr_nonempty (pArr : List Nat → Option (List Json × List Nat))
    (pObj : List Nat → Option (List (String × Json) × List Nat)) (r1 : Nat)
    (rtail : List Nat) (h93 : ¬ r1 = 93) :
    parseValCore pArr pObj (91 :: r1 :: rtail) =
      match pArr (r1 :: rtail) with
      | some (xs, r2) => some (Json.arr xs, r2)
      | none => none := by
  unfold parseValCore
  simp [h93]

theorem parseValCore_obj_empty (pArr : List Nat → Option (List Json × List Nat))
    (pObj : List Nat → Option (List (String × Json) × List Nat)) (r : List Nat) :
    parseValCore pArr pObj (123 :: 125 :: r) = some (Json.obj [], r) := by
  unfold parseValCore
  simp

theorem parseValCore_obj_nonempty (pArr : List Nat → Option (List Json × List Nat))
    (pObj : List Nat → Option (List (String × Json) × List Nat)) (r1 : Nat)
    (rtail : List Nat) (h125 : ¬ r1 = 125) :
    parseValCore pArr pObj (123 :: r1 :: rtail) =
      match pObj (r1 :: rtail) with
      | some (kvs, r2) => some (Json.obj kvs, r2)
      | none => none := by
  unfold parseValCore
  simp [h125]

theorem needV_pos (j : Json) : 1 ≤ needV j := by
  cases j <;> simp [needV]

theorem needA_pos (xs : List Json) : 1 ≤ needA xs := by
  match xs with
  | [] => simp [needA]
  | [x] => simp [needA]
  | x :: y :: t =>
    simp only [needA]
    omega

theorem needO_pos (kvs : List (String × Json)) : 1 ≤ needO kvs := by
  match kvs with
  | [] => simp [needO]
  | [(k, v)] => simp [needO]
  | (k, v) :: kv :: t =>
    simp only [needO]
    omega

theorem dumpsArr_eq (x : Json) (xs : List Json) :
    ∃ D, dumpsArr (x :: xs) = dumpsVal x ++ D := by
  cases xs with
  | nil => exact ⟨[], by simp [dumpsArr]⟩
  | cons y t => exact ⟨44 :: 32 :: dumpsArr (y :: t), rfl⟩

theorem dumpsObj_head (k : String) (v : Json) (kvs : List (String × Json)) :
    ∃ E, dumpsObj ((k, v) :: kvs) = 34 :: E := by
  cases kvs with
  | nil => exact ⟨escBytes k.data ++ [34] ++ 58 :: 32 :: dumpsVal v, by simp [dumpsObj, strBytes]⟩
  | cons kv t =>
    exact ⟨escBytes k.data ++ [34] ++ 58 :: 32 :: dumpsVal v ++ 44 :: 32 :: dumpsObj (kv :: t),
      by simp [dumpsObj, strBytes]⟩

theorem parseArrCore_last (pVal : List Nat → Option (Json × List Nat))
    (pRec : List Nat → Option (List Json × List Nat)) (input : List Nat)
    (j : Json) (r2 : List Nat) (h : pVal input = some (j, 93 :: r2)) :
    parseArrCore pVal pRec input = some ([j], r2) := by
  unfold parseArrCore
  rw [h]
  simp

theorem parseArrCore_cons (pVal : List Nat → Option (Json × List Nat))
    (pRec : List Nat → Option (List Json × List Nat)) (input : List Nat)
    (j : Json) (r3 : List Nat) (xs : List Json) (r4 : List Nat)
    (h : pVal input = some (j, 44 :: 32 :: r3)) (h2 : pRec r3 = some (xs, r4)) :
    parseArrCore pVal pRec input = some (j :: xs, r4) := by
  unfold parseArrCore
  rw [h]
  simp [h2]

theorem parseObjCore_last (pVal : List Nat → Option (Json × List Nat))
    (pRec : List Nat → Option (List (String × Json) × List Nat))
    (r0 : List Nat) (cs : List Char) (r3 : List Nat) (v : Json) (r5 : List Nat)
    (hstr : parseStrBytes r0 = some (cs, 58 :: 32 :: r3))
    (hval : pVal r3 = some (v, 125 :: r5)) :
    parseObjCore pVal pRec (34 :: r0) = some ([(String.mk cs, v)], r5) := by
  unfold parseObjCore
  rw [show (34 :: r0 : List Nat) = 34 :: r0 from rfl]
  simp only [reduceIte, hstr]
  simp [hval]

theorem parseObjCore_cons (pVal : List Nat → Option (Json × List Nat))
    (pRec : List Nat → Option (List (String × Json) × List Nat))
    (r0 : List Nat) (cs : List Char) (r3 : List Nat) (v : Json) (r6 : List Nat)
    (kvs : List (String × Json)) (r7 : List Nat)
    (hstr : parseStrBytes r0 = some (cs, 58 :: 32 :: r3))
    (hval : pVal r3 = some (v, 44 :: 32 :: r6))
    (hrec : pRec r6 = some (kvs, r7)) :
    parseObjCore pVal pRec (34 :: r0) = some ((String.mk cs, v) :: kvs, r7) := by
  unfold parseObjCore
  simp only [reduceIte, hstr]
  simp [hval, hrec]

theorem asciiSafeA_cons (x : Json) (xs : List Json) :
    asciiSafeA (x :: xs) = (asciiSafe x && asciiSafeA xs) := by
  simp [asciiSafeA]

theorem asciiSafeO_cons (k : String) (v : Json) (kvs : List (String × Json)) :
    asciiSafeO ((k, v) :: kvs) = (asciiSafeStr k && asciiSafe v && asciiSafeO kvs) := by
  simp [asciiSafeO]

theorem asciiSafeStr_chars (s : String) (h : asciiSafeStr s = true) :
    ∀ c ∈ s.data, 32 ≤ c.toNat ∧ c.toNat ≤ 126 := by
  simp only [asciiSafeStr, List.all_eq_true, Bool.and_eq_true, decide_eq_true_eq] at h
  exact h

mutual
/-- Parsing the serialization of a value, followed by non-digit input,
returns exactly that value, given enough fuel and printable-ASCII strings. -/
def parseVal_dumps : ∀ (j : Json) (f : Nat) (rest : List Nat),
    needV j ≤ f + 1 → asciiSafe j = true → noDigitHead rest →
    parseVal (f + 1) (dumpsVal j ++ rest) = some (j, rest)
  | Json.null, f, rest, _, _, _ => by
    rw [show dumpsVal Json.null ++ rest = 110 :: 117 :: 108 :: 108 :: rest from rfl]
    simp only [parseVal]
    exact parseValCore_null _ _ rest
  | Json.bool true, f, rest, _, _, _ => by
    rw [show dumpsVal (Json.bool true) ++ rest = 116 :: 114 :: 117 :: 101 :: rest from rfl]
    simp only [parseVal]
    exact parseValCore_true _ _ rest
  | Json.bool false, f, rest, _, _, _ => by
    rw [show dumpsVal (Json.bool false) ++ rest =
      102 :: 97 :: 108 :: 115 :: 101 :: rest from rfl]
    simp only [parseVal]
    exact parseValCore_false _ _ rest
  | Json.int n, f, rest, _, _, hr => by
    obtain ⟨d, t, hdt, hd⟩ := intDecimal_head n
    rw [show dumpsVal (Json.int n) = intDecimal n from rfl, hdt, List.cons_append]
    simp only [parseVal]
    rw [parseValCore_int _ _ d (t ++ rest) hd]
    rw [← List.cons_append, ← hdt, parseIntB_intDecimal n rest hr]
  | Json.str s, f, rest, _, hs, _ => by
    have hs2 : asciiSafeStr s = true := by simpa [asciiSafe] using hs
    rw [show dumpsVal (Json.str s) ++ rest = 34 :: (escBytes s.data ++ 34 :: rest) from by
      simp [dumpsVal, strBytes]]
    simp only [parseVal]
    rw [parseValCore_str, parseStr_escBytes s.data (asciiSafeStr_chars s hs2) rest]
  | Json.arr [], f, rest, _, _, _ => by
    rw [show dumpsVal (Json.arr []) ++ rest = 91 :: 93 :: rest from by
      simp [dumpsVal, dumpsArr]]
    simp only [parseVal]
    exact parseValCore_arr_empty _ _ rest
  | Json.arr (x :: xs), f, rest, hf, hs, _ => by
    obtain ⟨b, t2, hbt, h93, h125, h44, h32⟩ := dumpsVal_head x
    obtain ⟨D, hD⟩ := dumpsArr_eq x xs
    rw [show dumpsVal (Json.arr (x :: xs)) ++ rest =
        91 :: (dumpsArr (x :: xs) ++ 93 :: rest) from by simp [dumpsVal]]
    rw [show dumpsArr (x :: xs) ++ 93 :: rest = b :: (t2 ++ (D ++ 93 :: rest)) from by
      rw [hD, hbt]; simp]
    simp only [parseVal]
    rw [parseValCore_arr_nonempty _ _ b _ h93]
    rw [show (b :: (t2 ++ (D ++ 93 :: rest)) : List Nat) =
        dumpsArr (x :: xs) ++ 93 :: rest from by rw [hD, hbt]; simp]
    have hsA : asciiSafeA (x :: xs) = true := by simpa [asciiSafe] using hs
    have hfA : needA (x :: xs) ≤ f := by
      have h2 : needV (Json.arr (x :: xs)) = 1 + needA (x :: xs) := by simp [needV]
      omega
    rw [parseArr_dumps (x :: xs) f rest (by simp) hfA hsA]
  | Json.obj [], f, rest, _, _, _ => by
    rw [show dumpsVal (Json.obj []) ++ rest = 123 :: 125 :: rest from by
      simp [dumpsVal, dumpsObj]]
    simp only [parseVal]
    exact parseValCore_obj_empty _ _ rest
  | Json.obj ((k, v) :: kvs), f, rest, hf, hs, _ => by
    obtain ⟨E, hE⟩ := dumpsObj_head k v kvs
    rw [show dumpsVal (Json.obj ((k, v) :: kvs)) ++ rest =
        123 :: (dumpsObj ((k, v) :: kvs) ++ 125 :: rest) from by simp [dumpsVal]]
    rw [show dumpsObj ((k, v) :: kvs) ++ 125 :: rest = 34 :: (E ++ 125 :: rest) from by
      rw [hE]; simp]
    simp only [parseVal]
    rw [parseValCore_obj_nonempty _ _ 34 _ (by omega)]
    rw [show (34 :: (E ++ 125 :: rest) : List Nat) =
        dumpsObj ((k, v) :: kvs) ++ 125 :: rest from by rw [hE]; simp]
    have hsO : asciiSafeO ((k, v) :: kvs) = true := by simpa [asciiSafe] using hs
    have hfO : needO ((k, v) :: kvs) ≤ f := by
      have h2 : needV (Json.obj ((k, v) :: kvs)) = 1 + needO ((k, v) :: kvs) := by
        simp [needV]
      omega
    rw [parseObj_dumps ((k, v) :: kvs) f rest (by simp) hfO hsO]
/-- Parsing the serialized element list of a nonempty array, up to the
closing bracket. -/
def parseArr_dumps : ∀ (xs : List Json) (f : Nat) (rest : List Nat),
    xs ≠ [] → needA xs ≤ f → asciiSafeA xs = true →
    parseArr f (dumpsArr xs ++ 93 :: rest) = some (xs, rest)
  | [], _, _, hne, _, _ => absurd rfl hne
  | [x], f0, rest, _, hfA, hsa => by
    have hvx := needV_pos x
    have hA : needA [x] = 1 + needV x := by simp [needA]
    obtain ⟨g, rfl⟩ : ∃ g, f0 = g + 1 := ⟨f0 - 1, by omega⟩
    obtain ⟨f2, rfl⟩ : ∃ f2, g = f2 + 1 := ⟨g - 1, by omega⟩
    have hx : asciiSafe x = true := by
      rw [asciiSafeA_cons, Bool.and_eq_true] at hsa
      exact hsa.1
    rw [show dumpsArr [x] = dumpsVal x from by simp [dumpsArr]]
    simp only [parseArr]
    exact parseArrCore_last _ _ _ x rest
      (parseVal_dumps x f2 (93 :: rest) (by omega) hx (by simp [noDigitHead]))
  | x :: y :: t, f0, rest, _, hfA, hsa => by
    have hvx := needV_pos x
    have hAyt := needA_pos (y :: t)
    have hA : needA (x :: y :: t) = 1 + needV x + needA (y :: t) := by simp [needA]
    obtain ⟨g, rfl⟩ : ∃ g, f0 = g + 1 := ⟨f0 - 1, by omega⟩
    obtain ⟨f2, rfl⟩ : ∃ f2, g = f2 + 1 := ⟨g - 1, by omega⟩
    have hx : asciiSafe x = true := by
      rw [asciiSafeA_cons, Bool.and_eq_true] at hsa
      exact hsa.1
    have hyt : asciiSafeA (y :: t) = true := by
      rw [asciiSafeA_cons, Bool.and_eq_true] at hsa
      exact hsa.2
    rw [show dumpsArr (x :: y :: t) ++ 93 :: rest =
        dumpsVal x ++ (44 :: 32 :: (dumpsArr (y :: t) ++ 93 :: rest)) from by
      simp [dumpsArr]]
    simp only [parseArr]
    exact parseArrCore_cons _ _ _ x (dumpsArr (y :: t) ++ 93 :: rest) (y :: t) rest
      (parseVal_dumps x f2 _ (by omega) hx (by simp [noDigitHead]))
      (parseArr_dumps (y :: t) (f2 + 1) rest (by simp) (by omega) hyt)
/-- Parsing the serialized member list of a nonempty object, up to the
closing brace. -/
def parseObj_dumps : ∀ (kvs : List (String × Json)) (f : Nat) (rest : List Nat),
    kvs ≠ [] → needO kvs ≤ f → asciiSafeO kvs = true →
    parseObj f (dumpsObj kvs ++ 125 :: rest) = some (kvs, rest)
  | [], _, _, hne, _, _ => absurd rfl hne
  | [(k, v)], f0, rest, _, hfO, hso => by
    have hvv := needV_pos v
    have hO : needO [(k, v)] = 1 + needV v := by simp [needO]
    obtain ⟨g, rfl⟩ : ∃ g, f0 = g + 1 := ⟨f0 - 1, by omega⟩
    obtain ⟨f2, rfl⟩ : ∃ f2, g = f2 + 1 := ⟨g - 1, by omega⟩
    rw [asciiSafeO_cons, Bool.and_eq_true, Bool.and_eq_true] at hso
    rw [show dumpsObj [(k, v)] ++ 125 :: rest =
        34 :: (escBytes k.data ++ 34 :: (58 :: 32 :: (dumpsVal v ++ 125 :: rest))) from by
      simp [dumpsObj, strBytes]]
    simp only [parseObj]
    exact parseObjCore_last _ _ _ k.data (dumpsVal v ++ 125 :: rest) v rest
      (parseStr_escBytes k.data (asciiSafeStr_chars k hso.1.1) _)
      (parseVal_dumps v f2 (125 :: rest) (by omega) hso.1.2 (by simp [noDigitHead]))
  | (k, v) :: kv :: t, f0, rest, _, hfO, hso => by
    have hvv := needV_pos v
    have hOt := needO_pos (kv :: t)
    have hO : needO ((k, v) :: kv :: t) = 1 + needV v + needO (kv :: t) := by simp [needO]
    obtain ⟨g, rfl⟩ : ∃ g, f0 = g + 1 := ⟨f0 - 1, by omega⟩
    obtain ⟨f2, rfl⟩ : ∃ f2, g = f2 + 1 := ⟨g - 1, by omega⟩
    rw [asciiSafeO_cons, Bool.and_eq_true, Bool.and_eq_true] at hso
    rw [show dumpsObj ((k, v) :: kv :: t) ++ 125 :: rest =
        34 :: (escBytes k.data ++ 34 :: (58 :: 32 ::
          (dumpsVal v ++ 44 :: 32 :: (dumpsObj (kv :: t) ++ 125 :: rest)))) from by
      simp [dumpsObj, strBytes]]
    simp only [parseObj]
    exact parseObjCore_cons _ _ _ k.data
      (dumpsVal v ++ 44 :: 32 :: (dumpsObj (kv :: t) ++ 125 :: rest)) v
      (dumpsObj (kv :: t) ++ 125 :: rest) (kv :: t) rest
      (parseStr_escBytes k.data (asciiSafeStr_chars k hso.1.1) _)
      (parseVal_dumps v f2 _ (by omega) hso.1.2 (by simp [noDigitHead]))
      (parseObj_dumps (kv :: t) (f2 + 1) rest (by simp) (by omega) hso.2)
end

mutual
/-- The parser fuel needed for a value is at most its serialized length. -/
def needV_le : ∀ j : Json, needV j ≤ (dumpsVal j).length
  | Json.null => by simp [needV, dumpsVal]
  | Json.bool true => by simp [needV, dumpsVal]
  | Json.bool false => by simp [needV, dumpsVal]
  | Json.int n => by
    have l1 := List.length_pos.mpr (natDecimal_ne_nil n.natAbs)
    have l2 := List.length_pos.mpr (natDecimal_ne_nil n.toNat)
    simp only [needV, dumpsVal, intDecimal]
    split
    · simp
    · omega
  | Json.str s => by simp [needV, dumpsVal, strBytes]
  | Json.arr [] => by simp [needV, needA, dumpsVal, dumpsArr]
  | Json.arr (x :: xs) => by
    have h := needA_le (x :: xs)
    simp only [needV, dumpsVal, List.length_cons, List.length_append]
    omega
  | Json.obj [] => by simp [needV, needO, dumpsVal, dumpsObj]
  | Json.obj ((k, v) :: kvs) => by
    have h := needO_le ((k, v) :: kvs)
    simp only [needV, dumpsVal, List.length_cons, List.length_append]
    omega
def needA_le : ∀ xs : List Json, needA xs ≤ 1 + (dumpsArr xs).length
  | [] => by simp [needA, dumpsArr]
  | [x] => by
    have h := needV_le x
    simp only [needA, dumpsArr]
    omega
  | x :: y :: t => by
    have h1 := needV_le x
    have h2 := needA_le (y :: t)
    simp only [needA, dumpsArr, List.length_append, List.length_cons]
    omega
def needO_le : ∀ kvs : List (String × Json), needO kvs ≤ 1 + (dumpsObj kvs).length
  | [] => by simp [needO, dumpsObj]
  | [(k, v)] => by
    have h := needV_le v
    simp only [needO, dumpsObj, List.length_append, List.length_cons]
    omega
  | (k, v) :: kv :: t => by
    have h1 := needV_le v
    have h2 := needO_le (kv :: t)
    simp only [needO, dumpsObj, List.length_append, List.length_cons]
    omega
end

/-- The JSON library round-trip: parsing the serialization of a value made
of printable-ASCII strings returns the value. -/
theorem jsonLoads_dumps (j : Json) (h : asciiSafe j = true) :
    jsonLoadsBytes (dumpsVal j) = some j := by
  unfold jsonLoadsBytes
  have hle : needV j ≤ (dumpsVal j).length + 1 := le_trans (needV_le j) (by omega)
  have hp := parseVal_dumps j (dumpsVal j).length [] hle h trivial
  rw [List.append_nil] at hp
  rw [hp]

theorem escBytes_lt (cs : List Char) (h : ∀ c ∈ cs, c.toNat ≤ 126) :
    ∀ b ∈ escBytes cs, b < 256 := by
  induction cs with
  | nil => simp [escBytes]
  | cons c t ih =>
    intro b hb
    rw [escBytes_cons, List.mem_append] at hb
    rcases hb with hb | hb
    · have hc := h c (by simp)
      unfold escByte at hb
      split at hb <;> simp at hb <;> omega
    · exact ih (fun c2 hc2 => h c2 (by simp [hc2])) b hb

theorem intDecimal_lt (n : Int) : ∀ b ∈ intDecimal n, b < 256 := by
  intro b hb
  unfold intDecimal at hb
  split at hb
  · rcases List.mem_cons.mp hb with hb | hb
    · omega
    · have := natDecimal_digits n.natAbs b hb
      omega
  · have := natDecimal_digits n.toNat b hb
    omega

mutual
/-- Serialized bytes of printable-ASCII JSON values are valid byte values. -/
def dumpsVal_lt : ∀ j : Json, asciiSafe j = true → ∀ b ∈ dumpsVal j, b < 256
  | Json.null, _ => by intro b hb; simp [dumpsVal] at hb; omega
  | Json.bool true, _ => by intro b hb; simp [dumpsVal] at hb; omega
  | Json.bool false, _ => by intro b hb; simp [dumpsVal] at hb; omega
  | Json.int n, _ => intDecimal_lt n
  | Json.str s, hs => by
    have hs2 : asciiSafeStr s = true := by simpa [asciiSafe] using hs
    intro b hb
    simp only [dumpsVal, strBytes, List.mem_cons, List.mem_append, List.mem_singleton,
      List.not_mem_nil, or_false, false_or] at hb
    casesm* _ ∨ _
    all_goals first
      | omega
      | exact escBytes_lt s.data (fun c hc => (asciiSafeStr_chars s hs2 c hc).2) b (by assumption)
  | Json.arr xs, hs => by
    have hsA : asciiSafeA xs = true := by simpa [asciiSafe] using hs
    intro b hb
    simp only [dumpsVal, List.mem_cons, List.mem_append, List.mem_singleton,
      List.not_mem_nil, or_false, false_or] at hb
    casesm* _ ∨ _
    all_goals first
      | omega
      | exact dumpsArr_lt xs hsA b (by assumption)
  | Json.obj kvs, hs => by
    have hsO : asciiSafeO kvs = true := by simpa [asciiSafe] using hs
    intro b hb
    simp only [dumpsVal, List.mem_cons, List.mem_append, List.mem_singleton,
      List.not_mem_nil, or_false, false_or] at hb
    casesm* _ ∨ _
    all_goals first
      | omega
      | exact dumpsObj_lt kvs hsO b (by assumption)
def dumpsArr_lt : ∀ xs : List Json, asciiSafeA xs = true → ∀ b ∈ dumpsArr xs, b < 256
  | [], _ => by simp [dumpsArr]
  | [x], hs => by
    have hx : asciiSafe x = true := by
      rw [asciiSafeA_cons, Bool.and_eq_true] at hs
      exact hs.1
    rw [show dumpsArr [x] = dumpsVal x from by simp [dumpsArr]]
    exact dumpsVal_lt x hx
  | x :: y :: t, hs => by
    rw [asciiSafeA_cons, Bool.and_eq_true] at hs
    intro b hb
    rw [show dumpsArr (x :: y :: t) = dumpsVal x ++ 44 :: 32 :: dumpsArr (y :: t) from by
      simp [dumpsArr]] at hb
    simp only [List.mem_append, List.mem_cons, List.not_mem_nil, or_false, false_or] at hb
    casesm* _ ∨ _
    all_goals first
      | omega
      | exact dumpsVal_lt x hs.1 b (by assumption)
      | exact dumpsArr_lt (y :: t) hs.2 b (by assumption)
def dumpsObj_lt : ∀ kvs : List (String × Json), asciiSafeO kvs = true →
    ∀ b ∈ dumpsObj kvs, b < 256
  | [], _ => by simp [dumpsObj]
  | [(k, v)], hs => by
    rw [asciiSafeO_cons, Bool.and_eq_true, Bool.and_eq_true] at hs
    intro b hb
    rw [show dumpsObj [(k, v)] = strBytes k ++ 58 :: 32 :: dumpsVal v from by
      simp [dumpsObj]] at hb
    simp only [List.mem_append, List.mem_cons, List.mem_singleton, strBytes,
      List.not_mem_nil, or_false, false_or] at hb
    casesm* _ ∨ _
    all_goals first
      | omega
      | exact escBytes_lt k.data (fun c hc => (asciiSafeStr_chars k hs.1.1 c hc).2) b
          (by assumption)
      | exact dumpsVal_lt v hs.1.2 b (by assumption)
  | (k, v) :: kv :: t, hs => by
    rw [asciiSafeO_cons, Bool.and_eq_true, Bool.and_eq_true] at hs
    intro b hb
    rw [show dumpsObj ((k, v) :: kv :: t) =
        strBytes k ++ 58 :: 32 :: dumpsVal v ++ 44 :: 32 :: dumpsObj (kv :: t) from by
      simp [dumpsObj]] at hb
    simp only [List.mem_append, List.mem_cons, List.mem_singleton, strBytes,
      List.not_mem_nil, or_false, false_or] at hb
    casesm* _ ∨ _
    all_goals first
      | omega
      | exact escBytes_lt k.data (fun c hc => (asciiSafeStr_chars k hs.1.1 c hc).2) b
          (by assumption)
      | exact dumpsVal_lt v hs.1.2 b (by assumption)
      | exact dumpsObj_lt (kv :: t) hs.2 b (by assumption)
end

/-- C8: any input that does not split into exactly three dot-separated
segments yields the dedicated `MalformedToken` error; any three-segment
input whose padded payload base64-decodes to bytes that do not parse as
JSON yields `PayloadNotJSON` — an error kind distinct from the base64
failure `EncodingError` (the two reach the same handler but with different
exception classes and messages). -/
theorem C8_decode_error_kinds :
    (∀ tok : List Char, (splitDot tok).length ≠ 3 →
        decode_jwt_payload tok = Except.error JwtError.malformedToken) ∧
      (∀ (tok h p s2 : List Char) (bs : List Nat),
          splitDot tok = [h, p, s2] →
          b64decodeL (padB64 p) = some bs →
          jsonLoadsBytes bs = none →
          decode_jwt_payload tok = Except.error JwtError.payloadNotJSON) ∧
      JwtError.payloadNotJSON ≠ JwtError.encodingError := by
  refine ⟨?_, ?_, by decide⟩
  · intro tok hlen
    unfold decode_jwt_payload
    split
    · rename_i a p c heq
      rw [heq] at hlen
      simp at hlen
    · rfl
  · intro tok h p s2 bs hsp hdec hjson
    unfold decode_jwt_payload
    simp only [hsp, hdec, hjson]

/-- Witness for C8: a two-segment token, and a three-segment token whose
payload decodes to the non-JSON bytes 0,0,0. -/
theorem C8_witness :
    decode_jwt_payload "ab.cd".data = Except.error JwtError.malformedToken ∧
      decode_jwt_payload "a.AAAA.b".data = Except.error JwtError.payloadNotJSON := by
  constructor
  · exact C8_decode_error_kinds.1 _ (by decide)
  · exact C8_decode_error_kinds.2.1 _ "a".data "AAAA".data "b".data [0, 0, 0]
      (by decide) (by decide) (by rfl)

/-- C9, counterexample: the padding step is `'=' * (4 - len % 4)`, so a
payload whose length is already a multiple of four gets FOUR padding
characters appended, not zero as the claim states. -/
theorem C9_counterexample :
    "AAAA".data.length % 4 = 0 ∧
      padB64 "AAAA".data = "AAAA====".data ∧
      padB64 "AAAA".data ≠ "AAAA".data := by
  refine ⟨by decide, by decide, by decide⟩

/-- C9, amended: the decoder appends exactly `4 - (len mod 4)` padding
characters (four when the length is already a multiple of four, between one
and four always); since the base64 decoder tolerates the excess trailing
padding, decoding still succeeds, and decoding a compact token built from a
claims mapping (printable-ASCII strings, the repository's own use) returns
exactly that mapping. -/
theorem C9_amended :
    (∀ p : List Char, (padB64 p).length = p.length + (4 - p.length % 4)) ∧
      (∀ bs : List Nat, (∀ b ∈ bs, b < 256) →
          b64decodeL (padB64 (b64encodeL bs)) = some bs) ∧
      ∀ (header sig : List Char) (c : Json),
        (∀ ch ∈ header, ¬ ch = '.') → (∀ ch ∈ sig, ¬ ch = '.') → asciiSafe c = true →
        decode_jwt_payload (encodeCompact header sig c) = Except.ok c := by
  refine ⟨?_, fun bs h => b64_roundtrip bs h, ?_⟩
  · intro p
    simp [padB64]
  · intro header sig c hh hsig hc
    have hbytes : ∀ b ∈ dumpsVal c, b < 256 := dumpsVal_lt c hc
    have hencDot : ∀ ch ∈ b64encodeL (dumpsVal c), ¬ ch = '.' := by
      intro ch hch
      unfold b64encodeL at hch
      rw [List.mem_map] at hch
      obtain ⟨v, hv, rfl⟩ := hch
      have h64 := b64encodeVals_lt (dumpsVal c) hbytes v hv
      have hne := valToChar_ne_dot v h64
      simpa using hne
    unfold decode_jwt_payload encodeCompact
    rw [show header ++ '.' :: b64encodeL (dumpsVal c) ++ '.' :: sig =
        header ++ '.' :: (b64encodeL (dumpsVal c) ++ '.' :: sig) from by simp]
    rw [splitDot_app header _ hh, splitDot_app (b64encodeL (dumpsVal c)) sig hencDot,
      splitDot_no_dot sig hsig]
    simp only [b64_roundtrip (dumpsVal c) hbytes, jsonLoads_dumps c hc]

/-- Witness for C9: concrete bytes and a concrete compact token. -/
theorem C9_witness :
    b64decodeL (padB64 (b64encodeL [72, 101, 108])) = some [72, 101, 108] ∧
      decode_jwt_payload (encodeCompact "hdr".data "sig".data
          (Json.obj [("sub", Json.str "u1")])) =
        Except.ok (Json.obj [("sub", Json.str "u1")]) := by
  constructor
  · exact C9_amended.2.1 [72, 101, 108] (by decide)
  · exact C9_amended.2.2 "hdr".data "sig".data (Json.obj [("sub", Json.str "u1")])
      (by decide) (by decide) (by decide)


/-- Witness for C1 at the two-record store. -/
theorem C1_witness :
    get_current_tokens (some c1Store) =
      some ⟨lastSome ((scanEntries c1Store).map (fun e => accessOf e.2)),
            lastSome ((scanEntries c1Store).map (fun e => refreshOf e.2)),
            lastSome ((scanEntries c1Store).map (fun e => expiresOf e.2))⟩ :=
  C1_amended c1Store

/-- Witness for C7 at a 200 response whose JSON body lacks `access_token`. -/
theorem C7_witness :
    (refresh_access_token
        (some ⟨200, some (Json.obj [("token_type", Json.str "b")])⟩)).isSome = true ↔
      ∃ r j, (some ⟨200, some (Json.obj [("token_type", Json.str "b")])⟩ :
          Option HttpResp) = some r ∧
        r.status = 200 ∧ r.body = some j ∧ j ≠ Json.null :=
  C7_amended _
